import Mathlib

/-!
# TableGrouping (static/js/table-grouping.js)

A shallow embedding of the grouped-table renderer: the table body is the list
of its rows, a row is the list of its cells, and the module's only state is
the set `expandedGroups`.  Functions that append to `tbody` in the source take
the body and return the extended body.

Conventions of the embedding:
* a JavaScript string is a Lean `String`; one `Char` stands for one UTF-16
  code unit, so `length` / `substring` agree on text of the basic plane;
* a record field holds a string, an integer number, a boolean or nothing
  (`null` and `undefined` are both `Value.null`);
* `style` assignments and `console.log` calls have no counterpart here;
* `querySelector("tr[data-group-id=...]")` and
  `querySelectorAll("tr[data-parent-group=...]")` are read as equality tests
  on the two data attributes, which is what the spliced selectors denote for
  the ids of `selectorSafe`: those free of quote, backslash, line-break and
  null characters (every id built by `renderConcatGroup` is one).  For another
  id the selector engine decides what the lookup does, or that it raises a
  `SyntaxError`; statements on the rows after `toggleGroup` are made for
  selector-safe ids.
-/

namespace TableGrouping

/-! ## Data model -/

/-- A displayable field value. -/
inductive Value where
  | null
  | str (s : String)
  | num (n : Int)
  | bool (b : Bool)
  deriving DecidableEq, Repr

/-- The JavaScript `String(v)` conversion. -/
def Value.toStr : Value → String
  | .null => "null"
  | .str s => s
  | .num n => toString n
  | .bool true => "true"
  | .bool false => "false"

/-- JavaScript truthiness of a value. -/
def Value.truthy : Value → Bool
  | .null => false
  | .str s => s != ""
  | .num n => n != 0
  | .bool b => b

/-- A message record: an object read through `msg[col]`. -/
abbrev Record := List (String × Value)

/-- Property read `msg[col]`; a missing key reads as `undefined`. -/
def Record.get (msg : Record) (col : String) : Value :=
  (msg.lookup col).getD Value.null

/-- The cell text `msg[col] == null ? '' : String(msg[col])`. -/
def cellVal (msg : Record) (col : String) : String :=
  match msg.get col with
  | .null => ""
  | v => v.toStr

/-- The `metadata` object of a concat group. -/
structure Metadata where
  totalParts : Int
  receivedParts : Int
  complete : Bool
  deriving DecidableEq, Repr

/-- One element of `groupedData` (a GroupedMessageResponse). -/
structure Group where
  type : String
  message : Record
  parts : Option (List Record)
  metadata : Metadata
  deriving DecidableEq, Repr

/-- The `options` argument; `maxTruncate` may be left out. -/
structure Options where
  maxTruncate : Option Int
  deriving DecidableEq, Repr

/-- The expression `options.maxTruncate || dflt`: the default replaces a
missing value and the falsy number 0. -/
def Options.maxLen (options : Options) (dflt : Int) : Int :=
  match options.maxTruncate with
  | none => dflt
  | some n => if n = 0 then dflt else n

/-! ## The set `expandedGroups` -/

/-- A JavaScript `Set` of strings, kept in insertion order. -/
abbrev JSSet := List String

/-- The method `Set.prototype.has`. -/
def JSSet.has (s : JSSet) (x : String) : Bool := decide (x ∈ s)

/-- The method `Set.prototype.add`. -/
def JSSet.add (s : JSSet) (x : String) : JSSet := if x ∈ s then s else s ++ [x]

/-- The method `Set.prototype.delete`. -/
def JSSet.delete (s : JSSet) (x : String) : JSSet := s.filter (fun y => decide (y ≠ x))

/-- The method `Set.prototype.clear`. -/
def JSSet.clear (_s : JSSet) : JSSet := []

end TableGrouping

/-- The module object; `expandedGroups` is its only state. -/
structure TableGrouping where
  expandedGroups : TableGrouping.JSSet
  deriving DecidableEq, Repr

namespace TableGrouping

/-! ## Rows and cells -/

/-- A text-carrying `span` (`message-text` or `part-text`). -/
structure TextSpan where
  truncatedClass : Bool
  title : String
  dataFulltext : Option String
  textContent : String
  deriving DecidableEq, Repr

/-- The `concat-badge` span of a parent row. -/
structure Badge where
  statusClass : String
  textContent : String
  title : String
  deriving DecidableEq, Repr

/-- A child node of a `td`. -/
inductive Node where
  | expandIcon (innerHTML : String)
  | partLabel (textContent : String)
  | textNode (data : String)
  | messageDetails (textSpan : TextSpan) (badge : Option Badge) (binaryIndicator : Bool)
  | partText (textSpan : TextSpan)
  | markup (innerHTML : String)
  deriving DecidableEq, Repr

/-- A `td` element. -/
structure Cell where
  colSpan : Nat
  children : List Node
  fullText : Option String
  title : String
  hasBinary : Bool
  deriving DecidableEq, Repr

/-- A `tr` element with its class and its two data attributes. -/
structure Row where
  className : String
  groupId : Option String
  parentGroup : Option String
  cells : List Cell
  deriving DecidableEq, Repr

/-- The entity `&#9660;` (expanded). -/
def iconExpanded : String := "▼"

/-- The entity `&#9654;` (collapsed). -/
def iconCollapsed : String := "▶"

/-- `val.substring(0, n)`; a negative bound counts as 0. -/
def substring0 (val : String) (n : Int) : String := String.mk (val.data.take n.toNat)

/-- `Array.prototype.forEach` with a callback that updates a state. -/
def forEachIdx {α σ : Type} (f : σ → α → Nat → σ) : List α → Nat → σ → σ
  | [], _, s => s
  | a :: as, i, s => forEachIdx f as (i + 1) (f s a i)

/-- `columns.forEach((col, idx) => ... tr.appendChild(td))`: one cell per
column, built from the column and its index. -/
def mapIdxFrom {α β : Type} (f : α → Nat → β) : Nat → List α → List β
  | _, [] => []
  | i, a :: as => f a i :: mapIdxFrom f (i + 1) as

/-! ## Row construction -/

/-- The text span of the `text` column: the value is cut to `maxLen`
characters and followed by an ellipsis when it is longer than `maxLen`.
`baseTruncated` says whether the span has the class `truncated-cell` from the
start (child rows) or only once it is cut (parent and single rows). -/
def textSpanOf (val : String) (maxLen : Int) (baseTruncated : Bool) : TextSpan :=
  if (val.length : Int) > maxLen then
    { truncatedClass := true, title := "Click to expand", dataFulltext := some val,
      textContent := substring0 val maxLen ++ "…" }
  else
    { truncatedClass := baseTruncated, title := "", dataFulltext := none, textContent := val }

/-- The concat badge of a parent row. -/
def badgeOf (metadata : Metadata) : Badge :=
  let statusIcon := if metadata.complete then "✓" else "⚠"
  let statusClass := if metadata.complete then "complete" else "incomplete"
  { statusClass := statusClass,
    textContent := statusIcon ++ " CONCAT: " ++ toString metadata.receivedParts ++ "/"
      ++ toString metadata.totalParts,
    title :=
      if metadata.complete then
        "Complete concat message (" ++ toString metadata.totalParts ++ " parts)"
      else
        "Incomplete: " ++ toString metadata.receivedParts ++ " of "
          ++ toString metadata.totalParts ++ " parts received" }

/-- Create a parent row for a concat message group. -/
def createParentRow (group : Group) (columns : List String) (groupId : String)
    (isExpanded : Bool) (options : Options) : Row :=
  let msg := group.message
  let metadata := group.metadata
  { className := "concat-parent-row"
    groupId := some groupId
    parentGroup := none
    cells := mapIdxFrom (fun col idx =>
      let icon : List Node :=
        if idx = 0 then [Node.expandIcon (if isExpanded then iconExpanded else iconCollapsed)]
        else []
      let val := cellVal msg col
      if col = "text" then
        let maxLen := options.maxLen 19
        { colSpan := 1
          children := icon ++ [Node.messageDetails (textSpanOf val maxLen false)
            (some (badgeOf metadata)) false]
          fullText := some val
          title := ""
          hasBinary := false }
      else
        { colSpan := 1
          children := icon ++ [Node.textNode val]
          fullText := none
          title := ""
          hasBinary := false }) 0 columns }

/-- Create a child row for a message part. -/
def createChildRow (part : Record) (columns : List String) (groupId : String)
    (partNumber : Nat) (totalParts : Int) (options : Options) : Row :=
  { className := "concat-child-row"
    groupId := none
    parentGroup := some groupId
    cells := mapIdxFrom (fun col idx =>
      let label : List Node :=
        if idx = 0 then
          [Node.partLabel ("[" ++ toString partNumber ++ "/" ++ toString totalParts ++ "] ")]
        else []
      let val := cellVal part col
      if col = "text" then
        let maxLen := options.maxLen 40
        { colSpan := 1
          children := label ++ [Node.partText (textSpanOf val maxLen true)]
          fullText := some val
          title := ""
          hasBinary := false }
      else
        { colSpan := 1
          children := label ++ [Node.textNode val]
          fullText := none
          title := ""
          hasBinary := false }) 0 columns }

/-- One `String.prototype.replace` with a global one-character pattern. -/
def replaceAllChar (c : Char) (by_ : String) (str : String) : String :=
  String.join (str.data.map (fun d => if d = c then by_ else String.singleton d))

/-- Helper to escape HTML. -/
def escapeHtml (str : String) : String :=
  if str = "" then ""
  else
    replaceAllChar (Char.ofNat 39) "&#039;"
      (replaceAllChar (Char.ofNat 34) "&quot;"
        (replaceAllChar (Char.ofNat 62) "&gt;"
          (replaceAllChar (Char.ofNat 60) "&lt;"
            (replaceAllChar (Char.ofNat 38) "&amp;" str))))

/-- The positions of the expandable columns of a single row. -/
def expandableColumns : List Nat := [2, 5, 7, 8, 9, 10, 12]

/-- The row `tr` that `renderSingleMessage` builds for a message. -/
def singleMessageRow (msg : Record) (columns : List String) (options : Options) : Row :=
  { className := "single-message-row"
    groupId := none
    parentGroup := none
    cells := mapIdxFrom (fun col idx =>
      let val := cellVal msg col
      if col = "text" then
        let maxLen := options.maxLen 19
        let hasBin := (msg.get "rawMessageBytesBase64").truthy
        { colSpan := 1
          children := [Node.messageDetails (textSpanOf val maxLen false) none hasBin]
          fullText := some val
          title :=
            if (msg.get "messageEncoding").truthy then
              "Encoding: " ++ (msg.get "messageEncoding").toStr
            else ""
          hasBinary := hasBin }
      else if idx ∈ expandableColumns then
        if val.length > 60 then
          { colSpan := 1
            children := [Node.markup
              ("<span class=\"truncated-cell\" title=\"Click to expand\" data-fulltext=\""
                ++ escapeHtml val ++ "\">" ++ escapeHtml (substring0 val 60) ++ "…</span>")]
            fullText := some val
            title := ""
            hasBinary := false }
        else
          { colSpan := 1
            children := [Node.markup
              ("<span class=\"truncated-cell\">" ++ escapeHtml val ++ "</span>")]
            fullText := some val
            title := ""
            hasBinary := false }
      else
        { colSpan := 1
          children := [Node.textNode val]
          fullText := none
          title := ""
          hasBinary := false }) 0 columns }

/-- Render a single (non-concat) message: its row is appended to `tbody`. -/
def renderSingleMessage (msg : Record) (tbody : List Row) (columns : List String)
    (options : Options) : List Row :=
  tbody ++ [singleMessageRow msg columns options]

/-! ## Rendering -/

/-- Render a concat message group: the parent row and, when the group is
expanded, one child row per part are appended to `tbody`. -/
def renderConcatGroup (self : TableGrouping) (group : Group) (tbody : List Row)
    (columns : List String) (groupIndex : Nat) (options : Options) : List Row :=
  let groupId := "concat-group-" ++ toString groupIndex
  let isExpanded := self.expandedGroups.has groupId
  let parentRow := createParentRow group columns groupId isExpanded options
  let tbody := tbody ++ [parentRow]
  match group.parts with
  | some parts =>
    if isExpanded && decide (parts.length > 0) then
      forEachIdx (fun tbody part partIndex =>
        tbody ++ [createChildRow part columns groupId (partIndex + 1)
          group.metadata.totalParts options]) parts 0 tbody
    else tbody
  | none => tbody

/-- The placeholder row of an empty table. -/
def placeholderRow (columns : List String) : Row :=
  { className := ""
    groupId := none
    parentGroup := none
    cells := [{ colSpan := columns.length
                children := [Node.textNode "No messages to display."]
                fullText := none
                title := ""
                hasBinary := false }] }

/-- The assignment `tbody.innerHTML = ''`: every row is dropped. -/
def clearBody (_tbody : List Row) : List Row := []

/-- Render a table with grouped messages.  `groupedData` may be missing
(`none`); `tbody` is the body as it was before the call; the result is the
body after the call. -/
def renderGroupedMessages (self : TableGrouping) (groupedData : Option (List Group))
    (tbody : List Row) (columns : List String) (options : Options) : List Row :=
  let tbody : List Row := clearBody tbody
  match groupedData with
  | none => tbody ++ [placeholderRow columns]
  | some groupedData =>
    if groupedData.length = 0 then tbody ++ [placeholderRow columns]
    else
      forEachIdx (fun tbody group index =>
        if group.type = "concat" then
          renderConcatGroup self group tbody columns index options
        else
          renderSingleMessage group.message tbody columns options) groupedData 0 tbody

/-! ## Expand state transitions -/

/-- The group ids that can be spliced into the selectors
`tr[data-group-id="..."]` and `tr[data-parent-group="..."]` as they are: those
without a double quote (34), a backslash (92), a line feed (10), a form feed
(12), a carriage return (13) or a null character (0).  Such an id is the
content of the quoted string of the selector, so the selector is valid and
selects the rows whose attribute is equal to the id. -/
def selectorSafe (groupId : String) : Bool :=
  groupId.data.all (fun c => !([0, 10, 12, 13, 34, 92].contains c.toNat))

/-- `tbody.querySelector('tr[data-group-id=...]')`: the position of the first
row carrying that group id, if there is one. -/
def queryParentRow (groupId : String) : List Row → Option Nat
  | [] => none
  | row :: rows =>
    if row.groupId = some groupId then some 0
    else (queryParentRow groupId rows).map (fun i => i + 1)

/-- `parentRow.insertAdjacentElement('afterend', childRow)` for the parent row
at position `i`: the new row becomes the next sibling of the parent row. -/
def insertAfter (i : Nat) (childRow : Row) (tbody : List Row) : List Row :=
  tbody.take (i + 1) ++ childRow :: tbody.drop (i + 1)

/-- Update the first `.expand-icon` among the nodes of a cell. -/
def setIconNodes (v : String) : List Node → Option (List Node)
  | [] => none
  | Node.expandIcon _ :: ns => some (Node.expandIcon v :: ns)
  | n :: ns => (setIconNodes v ns).map (fun ns => n :: ns)

/-- Update the first `.expand-icon` among the cells of a row. -/
def setIconCells (v : String) : List Cell → Option (List Cell)
  | [] => none
  | c :: cs =>
    match setIconNodes v c.children with
    | some ns => some ({ c with children := ns } :: cs)
    | none => (setIconCells v cs).map (fun cs => c :: cs)

/-- `const icon = parentRow.querySelector('.expand-icon');
if (icon) icon.innerHTML = v`. -/
def Row.setIcon (v : String) (row : Row) : Row :=
  match setIconCells v row.cells with
  | some cs => { row with cells := cs }
  | none => row

/-- Apply an update to the row at position `i`. -/
def updateRow (f : Row → Row) : Nat → List Row → List Row
  | _, [] => []
  | 0, row :: rows => f row :: rows
  | i + 1, row :: rows => row :: updateRow f i rows

/-- Toggle expand/collapse state of a group.  The result is the new module
state together with the new table body. -/
def toggleGroup (self : TableGrouping) (groupId : String) (tbody : List Row) (group : Group)
    (columns : List String) (options : Options) : TableGrouping × List Row :=
  let isExpanded := self.expandedGroups.has groupId
  if isExpanded then
    let self : TableGrouping := { expandedGroups := self.expandedGroups.delete groupId }
    let tbody := tbody.filter (fun row => decide (row.parentGroup ≠ some groupId))
    match queryParentRow groupId tbody with
    | some i => (self, updateRow (Row.setIcon iconCollapsed) i tbody)
    | none => (self, tbody)
  else
    let self : TableGrouping := { expandedGroups := self.expandedGroups.add groupId }
    match queryParentRow groupId tbody, group.parts with
    | some i, some parts =>
      if parts.length > 0 then
        let tbody := forEachIdx (fun tbody part partIndex =>
          insertAfter i (createChildRow part columns groupId (partIndex + 1)
            group.metadata.totalParts options) tbody) parts 0 tbody
        (self, updateRow (Row.setIcon iconExpanded) i tbody)
      else (self, tbody)
    | _, _ => (self, tbody)

/-- Expand all concat groups. -/
def expandAll (self : TableGrouping) (groupedData : List Group) (tbody : List Row)
    (columns : List String) (options : Options) : TableGrouping × List Row :=
  let self : TableGrouping := forEachIdx (fun (self : TableGrouping) group index =>
    if group.type = "concat" then
      let groupId := "concat-group-" ++ toString index
      if !self.expandedGroups.has groupId then
        { expandedGroups := self.expandedGroups.add groupId }
      else self
    else self) groupedData 0 self
  (self, renderGroupedMessages self (some groupedData) tbody columns options)

/-- Collapse all concat groups. -/
def collapseAll (self : TableGrouping) (groupedData : Option (List Group)) (tbody : List Row)
    (columns : List String) (options : Options) : TableGrouping × List Row :=
  let self : TableGrouping := { expandedGroups := self.expandedGroups.clear }
  (self, renderGroupedMessages self groupedData tbody columns options)

/-! ## Descriptions of the rendered rows -/

/-- The child rows of a group in part order. -/
def childRows (parts : List Record) (columns : List String) (groupId : String)
    (totalParts : Int) (options : Options) (start : Nat) : List Row :=
  mapIdxFrom (fun part partIndex =>
    createChildRow part columns groupId (partIndex + 1) totalParts options) start parts

/-- The concatenation of the lists a callback yields for the elements of a
list, the callback being given each element with its index. -/
def flatMapIdxFrom {α β : Type} (g : α → Nat → List β) : Nat → List α → List β
  | _, [] => []
  | i, a :: as => g a i ++ flatMapIdxFrom g (i + 1) as

/-- Rows of one concat entry. -/
def concatRows (self : TableGrouping) (group : Group) (columns : List String)
    (groupIndex : Nat) (options : Options) : List Row :=
  let groupId := "concat-group-" ++ toString groupIndex
  createParentRow group columns groupId (self.expandedGroups.has groupId) options ::
    (if self.expandedGroups.has groupId then
      childRows (group.parts.getD []) columns groupId group.metadata.totalParts options 0
     else [])

/-- Rows of one entry of `groupedData`. -/
def entryRows (self : TableGrouping) (columns : List String) (options : Options)
    (group : Group) (index : Nat) : List Row :=
  if group.type = "concat" then concatRows self group columns index options
  else renderSingleMessage group.message [] columns options

/-! ## Observations on a row -/

/-- The first `.expand-icon` among the nodes of a cell. -/
def iconOfNodes : List Node → Option String
  | [] => none
  | Node.expandIcon v :: _ => some v
  | _ :: ns => iconOfNodes ns

/-- The first `.expand-icon` among the cells of a row. -/
def iconOfCells : List Cell → Option String
  | [] => none
  | c :: cs =>
    match iconOfNodes c.children with
    | some v => some v
    | none => iconOfCells cs

/-- The expand indicator a row shows: the content of its first `.expand-icon`
(the element `parentRow.querySelector('.expand-icon')`), if it has one. -/
def Row.icon (row : Row) : Option String := iconOfCells row.cells

/-- The first `.part-label` among the nodes of a cell. -/
def labelOfNodes : List Node → Option String
  | [] => none
  | Node.partLabel t :: _ => some t
  | _ :: ns => labelOfNodes ns

/-- The first `.part-label` among the cells of a row. -/
def labelOfCells : List Cell → Option String
  | [] => none
  | c :: cs =>
    match labelOfNodes c.children with
    | some t => some t
    | none => labelOfCells cs

/-- The part label a row carries: the text of its first `.part-label`, if it
has one. -/
def Row.label (row : Row) : Option String := labelOfCells row.cells

/-! ## The end-to-end scenario of the specification -/

/-- The standalone entry of the end-to-end scenario. -/
def scenarioSingle : Group :=
  { type := "single"
    message := [("id", Value.num 1), ("text", Value.str "hi")]
    parts := none
    metadata := { totalParts := 1, receivedParts := 1, complete := true } }

/-- The two-part concat group of the end-to-end scenario. -/
def scenarioGroup : Group :=
  { type := "concat"
    message := [("id", Value.num 2), ("text", Value.str "ab|cd")]
    parts := some [[("text", Value.str "ab")], [("text", Value.str "cd")]]
    metadata := { totalParts := 2, receivedParts := 2, complete := true } }

/-- The entries of the end-to-end scenario. -/
def scenarioEntries : List Group := [scenarioSingle, scenarioGroup]

/-- The columns the scenario is rendered with. -/
def scenarioColumns : List String := ["id", "text"]

/-- The call `renderGroupedMessages(data, tbody, columns)` without options. -/
def noOptions : Options := { maxTruncate := none }

/-! ## Observations on the text column -/

/-- The text span among the nodes of a cell: the first `.message-text` or
`.part-text` span. -/
def spanOfNodes : List Node → Option TextSpan
  | [] => none
  | Node.messageDetails textSpan _ _ :: _ => some textSpan
  | Node.partText textSpan :: _ => some textSpan
  | _ :: ns => spanOfNodes ns

/-- The text span of a cell, if it has one. -/
def Cell.textSpan (cell : Cell) : Option TextSpan := spanOfNodes cell.children

/-- The threshold as the specification words it: `options.maxTruncate` when a
positive value is given, the default otherwise. -/
def statedThreshold (options : Options) (dflt : Nat) : Nat :=
  match options.maxTruncate with
  | some n => if 0 < n then n.toNat else dflt
  | none => dflt

/-- The value of a decimal digit character. -/
def digitValue (c : Char) : Nat := c.toNat - 48

/-- The number a list of decimal digits reads as, continuing from `acc`. -/
def readDigits (acc : Nat) (ds : List Char) : Nat :=
  ds.foldl (fun acc c => acc * 10 + digitValue c) acc

/-- A value of 61 characters, one more than the threshold of the expandable
columns. -/
def longValue : String := String.mk (List.replicate 61 'x')

/-- A concat group whose message has the 61-character value in its `note`
field; its one part has it too. -/
def longGroup : Group :=
  { type := "concat"
    message := [("id", Value.num 7), ("note", Value.str longValue)]
    parts := some [[("id", Value.num 8), ("note", Value.str longValue)]]
    metadata := { totalParts := 1, receivedParts := 1, complete := true } }

/-- Columns that put the `note` field at the expandable position 2. -/
def longColumns : List String := ["id", "text", "note"]

/-- The concat badge among the nodes of a cell: the badge of its first
`.message-details` container. -/
def badgeOfNodes : List Node → Option Badge
  | [] => none
  | Node.messageDetails _ badge _ :: _ => badge
  | _ :: ns => badgeOfNodes ns

/-- The concat badge of a cell, if it has one. -/
def Cell.badge (cell : Cell) : Option Badge := badgeOfNodes cell.children

/-- The metadata of the specification's incomplete example. -/
def incompleteGroup : Group :=
  { type := "concat"
    message := [("id", Value.num 3), ("text", Value.str "abc")]
    parts := some [[("text", Value.str "a")], [("text", Value.str "b")],
      [("text", Value.str "c")]]
    metadata := { totalParts := 5, receivedParts := 3, complete := false } }

/-- A page: the module object together with the table body it renders into. -/
structure Page where
  grouping : TableGrouping
  tbody : List Row
  deriving DecidableEq, Repr

/-- `renderSingleMessage` as a call on the page: the row is appended to the
table body of the page. -/
def Page.renderSingleMessage (page : Page) (msg : Record) (columns : List String)
    (options : Options) : Page :=
  { page with tbody := page.tbody ++ [singleMessageRow msg columns options] }

/-- `renderConcatGroup` as a call on the page: `this.expandedGroups.has` is
asked for the group id, then the parent row and, when the group is expanded,
one child row per part are appended.  The page is handed from statement to
statement. -/
def Page.renderConcatGroup (page : Page) (group : Group) (columns : List String)
    (groupIndex : Nat) (options : Options) : Page :=
  let groupId := "concat-group-" ++ toString groupIndex
  let isExpanded := page.grouping.expandedGroups.has groupId
  let parentRow := createParentRow group columns groupId isExpanded options
  let page : Page := { page with tbody := page.tbody ++ [parentRow] }
  match group.parts with
  | some parts =>
    if isExpanded && decide (parts.length > 0) then
      forEachIdx (fun (page : Page) part partIndex =>
        { page with
          tbody := page.tbody ++ [createChildRow part columns groupId (partIndex + 1)
            group.metadata.totalParts options] }) parts 0 page
    else page
  | none => page

/-- `renderGroupedMessages` as a call on the page: the body is cleared, then
the placeholder row is appended or every entry is rendered in turn by
`renderConcatGroup` or `renderSingleMessage`, each being handed the page the
one before it left. -/
def Page.renderGroupedMessages (page : Page) (groupedData : Option (List Group))
    (columns : List String) (options : Options) : Page :=
  let page : Page := { page with tbody := clearBody page.tbody }
  match groupedData with
  | none => { page with tbody := page.tbody ++ [placeholderRow columns] }
  | some groupedData =>
    if groupedData.length = 0 then
      { page with tbody := page.tbody ++ [placeholderRow columns] }
    else
      forEachIdx (fun (page : Page) group index =>
        if group.type = "concat" then
          page.renderConcatGroup group columns index options
        else
          page.renderSingleMessage group.message columns options) groupedData 0 page

/-- A call of one of the four public operations on the table of a page. -/
inductive Call where
  | renderGroupedMessages (groupedData : Option (List Group))
  | toggleGroup (groupId : String) (group : Group)
  | expandAll (groupedData : List Group)
  | collapseAll (groupedData : Option (List Group))
  deriving DecidableEq, Repr

/-- The page after one call. -/
def Page.call (columns : List String) (options : Options) (page : Page) : Call → Page
  | Call.renderGroupedMessages groupedData =>
    page.renderGroupedMessages groupedData columns options
  | Call.toggleGroup groupId group =>
    { grouping := (toggleGroup page.grouping groupId page.tbody group columns options).1
      tbody := (toggleGroup page.grouping groupId page.tbody group columns options).2 }
  | Call.expandAll groupedData =>
    { grouping := (expandAll page.grouping groupedData page.tbody columns options).1
      tbody := (expandAll page.grouping groupedData page.tbody columns options).2 }
  | Call.collapseAll groupedData =>
    { grouping := (collapseAll page.grouping groupedData page.tbody columns options).1
      tbody := (collapseAll page.grouping groupedData page.tbody columns options).2 }

/-- The page after a sequence of calls. -/
def Page.run (columns : List String) (options : Options) (page : Page) (calls : List Call) :
    Page :=
  calls.foldl (Page.call columns options) page

/-- A concat group without parts. -/
def emptyGroup : Group :=
  { type := "concat"
    message := [("id", Value.num 4), ("text", Value.str "")]
    parts := some []
    metadata := { totalParts := 2, receivedParts := 0, complete := false } }

end TableGrouping

/-!
# TableExport (static/js/table-export.js)

The export helpers work on the same values and records as the table.  The
browser's `alert` and the download that `downloadFile` triggers are the
observable outcome of an export; the built-in `JSON.stringify(data, null, 2)`
is a parameter of the embedding.
-/

namespace TableExport

open TableGrouping

/-- The comma. -/
def comma : Char := Char.ofNat 44

/-- The line feed. -/
def newline : Char := Char.ofNat 10

/-- The double quote. -/
def quote : Char := Char.ofNat 34

/-- Escape CSV value. -/
def escapeCSV (value : Value) : String :=
  match value with
  | Value.null => ""
  | v =>
    let value := v.toStr
    if value.data.contains comma || value.data.contains newline || value.data.contains quote
    then String.singleton quote
      ++ replaceAllChar quote (String.mk [quote, quote]) value
      ++ String.singleton quote
    else value

/-- What an export call does to the page. -/
inductive Outcome where
  | alert (message : String)
  | download (content : String) (filename : String) (mimeType : String)
  deriving DecidableEq, Repr

/-- The destructuring
`const { rawMessageBytes, rawMessageBytesBase64, ...rest } = msg`: the new
object `rest` with every property of `msg` but these two. -/
def withoutRawBytes (msg : Record) : Record :=
  msg.filter (fun kv => decide (kv.1 ≠ "rawMessageBytes" ∧ kv.1 ≠ "rawMessageBytesBase64"))

/-- The callback of `messages.map` in `exportMessagesToJSON`:
`msg => { const { rawMessageBytes, rawMessageBytesBase64, ...rest } = msg; return rest; }`.
The destructuring reads `msg` and builds the new object `rest`; the result is
the message as it is after the callback, and the object returned. -/
def stripRawBytes (msg : Record) : Record × Record :=
  (msg, withoutRawBytes msg)

/-- `messages.map(callback)` for a callback that is handed each message
itself: the messages as they are after the loop, and the new array of the
objects returned. -/
def mapMessages (callback : Record → Record × Record) (messages : List Record) :
    List Record × List Record :=
  ((messages.map callback).map Prod.fst, (messages.map callback).map Prod.snd)

/-- Export messages to JSON.  `stringify` stands for
`data => JSON.stringify(data, null, 2)`; `messages` may be missing.  The
result is what the call does to the page, and the argument `messages` as it is
after the call. -/
def exportMessagesToJSON (stringify : List Record → String) (messages : Option (List Record))
    (filename : String) (includeRawBytes : Bool) : Outcome × Option (List Record) :=
  match messages with
  | none => (Outcome.alert "No messages to export", none)
  | some messages =>
    if messages.length = 0 then (Outcome.alert "No messages to export", some messages)
    else
      let exportData := messages
      let (messages, exportData) :=
        if !includeRawBytes then mapMessages stripRawBytes messages
        else (messages, exportData)
      let json := stringify exportData
      (Outcome.download json (filename ++ ".json") "application/json;charset=utf-8;",
        some messages)

end TableExport

/-!
# MessageEncodingTools (static/js/messages-encoding-tools.js)

`analyzeEncoding` returns the list of the issue lines it pushed.  A character
of the text is one UTF-16 code unit, as `charAt` yields it.
-/

namespace MessageEncodingTools

/-- The constant `gsm7Alphabet` of `isGsm7Compatible`. -/
def gsm7Alphabet : String :=
  "@£$¥èéùìòÇ\nØø\rÅåΔ_ΦΓΛΩΠΨΣΘΞ\x1bÆæßÉ !\"#¤%&\x27()*+,-./0123456789:;<=>?"
    ++ "¡ABCDEFGHIJKLMNOPQRSTUVWXYZÄÖÑÜ§¿abcdefghijklmnopqrstuvwxyzäöñüà"

/-- The GSM7 extended set: `^`, the two braces, the backslash, `[`, `~`, `]`,
`|` and `€` (the constants `gsm7Ext` and `gsm7ExtendedChars`). -/
def gsm7Ext : String := "^\x7b\x7d\\[~]|€"

/-- Whether a character is in the GSM7 alphabet or its extended set. -/
def isGsm7Compatible (char : Char) : Bool :=
  gsm7Alphabet.data.contains char || gsm7Ext.data.contains char

/-- The loop `for (let i = charsPerPart; i < totalChars; i += charsPerPart)`
of `calculatePartBoundaries`, with its counter `i`; `fuel` bounds the number of
rounds. -/
def boundariesFrom (totalChars charsPerPart : Nat) : Nat → Nat → List Nat
  | 0, _ => []
  | fuel + 1, i =>
    if i < totalChars then i :: boundariesFrom totalChars charsPerPart fuel (i + charsPerPart)
    else []

/-- The part boundaries: the multiples of `charsPerPart` below `totalChars`.
The loop runs at most `totalChars` rounds when `charsPerPart` is positive. -/
def calculatePartBoundaries (totalChars charsPerPart : Nat) : List Nat :=
  boundariesFrom totalChars charsPerPart totalChars charsPerPart

/-- `Math.ceil(charCount / perPart)` for a positive `perPart`. -/
def ceilDiv (charCount perPart : Nat) : Nat := (charCount + perPart - 1) / perPart

/-- The entry `'c' (hex)` that the scan records for a character outside GSM7. -/
def nonGsm7Entry (char : Char) : String :=
  "\x27" ++ String.singleton char ++ "\x27 (" ++ String.mk (Nat.toDigits 16 char.toNat) ++ ")"

/-- The scan of the text for GSM7: the issue lines pushed for characters of
the extended set, and the recorded characters outside GSM7. -/
def scanGsm7 : List Char → List String × List String
  | [] => ([], [])
  | char :: rest =>
    let r := scanGsm7 rest
    if !isGsm7Compatible char then (r.1, nonGsm7Entry char :: r.2)
    else if gsm7Ext.data.contains char then
      (("Character \x27" ++ String.singleton char
          ++ "\x27 is from GSM7 extended set and counts as 2 characters") :: r.1, r.2)
    else r

/-- The issue lines on length and parts for a text that splits at `single`
characters into parts of `perPart`. -/
def lengthIssues (charCount single perPart : Nat) : List String :=
  let partsCount := if charCount ≤ single then 1 else ceilDiv charCount perPart
  ["Message length: " ++ toString charCount ++ " characters (" ++ toString partsCount
      ++ " parts)"]
    ++ (if partsCount > 1 then
          ["Part boundaries at: "
            ++ String.intercalate ", " ((calculatePartBoundaries charCount perPart).map toString)]
        else [])

/-- Analyze message for potential encoding issues. -/
def analyzeEncoding (text : String) (encoding : String) : List String :=
  let issues : List String :=
    if encoding = "GSM7" then
      let scan := scanGsm7 text.data
      scan.1
        ++ (if scan.2.length > 0 then
              ["Found " ++ toString scan.2.length ++ " non-GSM7 characters: "
                ++ String.intercalate ", " scan.2]
            else [])
    else []
  let charCount := text.length
  if encoding = "GSM7" then issues ++ lengthIssues charCount 160 153
  else if encoding = "UTF-16BE" ∨ encoding = "UCS-2" then
    issues ++ lengthIssues charCount 70 67
  else issues ++ ["Message length: " ++ toString charCount ++ " characters"]

/-- The message length as the specification counts it for GSM7: a character
of the extended set counts as 2, every other character as 1. -/
def statedGsm7Length (text : String) : Nat :=
  (text.data.map (fun char => if gsm7Ext.data.contains char then 2 else 1)).sum

/-- The part count the specification derives from that length. -/
def statedGsm7Parts (text : String) : Nat :=
  if statedGsm7Length text ≤ 160 then 1 else ceilDiv (statedGsm7Length text) 153

/-- A GSM7 text of 160 characters, the last one from the extended set. -/
def caretText : String := String.mk (List.replicate 159 'a' ++ ['^'])

end MessageEncodingTools

namespace TableGrouping

/-! ## The click listener of the expand icon -/

/-- How a piece of script ends: it returns, or an error is raised. -/
inductive Completion (α : Type) where
  | returned (value : α)
  | raised (error : String)
  deriving DecidableEq, Repr

/-- The click listener that `createParentRow` attaches to the expand icon:
`(e) => { e.stopPropagation(); this.toggleGroup(groupId, tbody, group, columns, options); }`.
`groupId`, `group`, `columns` and `options` are the arguments of
`createParentRow`; `tbody` is neither one of its parameters nor declared
anywhere in the module, so the identifier is looked up in the global scope.
`globalTbody` is the table body a global `tbody` is bound to, `none` when the
page has no such global.  On return the listener has left the new module
state and the new content of that global table body. -/
def expandIconClick (self : TableGrouping) (globalTbody : Option (List Row)) (groupId : String)
    (group : Group) (columns : List String) (options : Options) :
    Completion (TableGrouping × List Row) :=
  match globalTbody with
  | none => Completion.raised "ReferenceError: tbody is not defined"
  | some tbody => Completion.returned (toggleGroup self groupId tbody group columns options)

end TableGrouping

/-!
# Table sorting and refresh state (static/js/Atable.js)

A sortable table is its number of header cells, the header cell carrying the
class `sorted-asc` or `sorted-desc`, its body rows and the two variables
`sortCol` and `sortAsc` that `makeTableSortable` keeps for it.  The order in
which `sortTable(table, colIdx, asc)` leaves the rows is a parameter: its
comparison converts cell texts with `Number`.  Of the state that
`getTableState` saves, the search text, the filters and the page go through
the page's input and the hooks of `window.APP`; the embedding keeps the sort.
-/

namespace Atable

/-- A `.unified-table` made sortable. -/
structure Table (ρ : Type) where
  columns : Nat
  sorted : Option (Nat × Bool)
  rows : List ρ
  sortCol : Option Nat
  sortAsc : Bool

/-- The click listener of header cell `idx` in `makeTableSortable`; a header
cell that does not exist cannot be clicked. -/
def clickHeader {ρ : Type} (sortTable : Nat → Bool → List ρ → List ρ) (table : Table ρ)
    (idx : Nat) : Table ρ :=
  if idx < table.columns then
    let sortAsc := if table.sortCol = some idx then !table.sortAsc else true
    { columns := table.columns
      sorted := some (idx, sortAsc)
      rows := sortTable idx sortAsc table.rows
      sortCol := some idx
      sortAsc := sortAsc }
  else table

/-- The `sort` field of a saved table state. -/
structure SortState where
  idx : Nat
  asc : Bool
  deriving DecidableEq, Repr

/-- The saved table state (its `sort` field). -/
structure TableState where
  sort : Option SortState
  deriving DecidableEq, Repr

/-- Utility to get the sort state: the header cell with class `sorted-asc` or
`sorted-desc`, by its index in the header row and its direction. -/
def getTableState {ρ : Type} (table : Table ρ) : TableState :=
  { sort :=
      match table.sorted with
      | none => none
      | some (idx, asc) => some { idx := idx, asc := asc } }

/-- Utility to set the sort state: one click on the saved header cell, and a
second click when the saved direction is descending. -/
def setTableState {ρ : Type} (sortTable : Nat → Bool → List ρ → List ρ) (table : Table ρ)
    (state : TableState) : Table ρ :=
  match state.sort with
  | none => table
  | some sort =>
    let table := clickHeader sortTable table sort.idx
    if !sort.asc then clickHeader sortTable table sort.idx else table

/-- A table of three columns on which no header has been clicked yet. -/
def freshTable {ρ : Type} (rows : List ρ) : Table ρ :=
  { columns := 3, sorted := none, rows := rows, sortCol := none, sortAsc := true }

end Atable

/-!
# Messages page (static/v2/js/messagesV2.js)

The page keeps its data in the object `state`; the functions below take it
and return it.  The built-in `String.prototype.toLowerCase` is a parameter,
`Array.prototype.sort` with a consistent comparison function is the stable
sort, and two strings are compared as JavaScript compares them, by their
UTF-16 code units.
-/

namespace MessagesV2

open TableGrouping

/-- The object `state` of the page (the fields the embedded functions use). -/
structure State where
  messages : List Record
  filteredMessages : List Record
  currentPage : Nat
  pageSize : Nat
  sortColumn : Option String
  sortDirection : String
  searchTerm : String
  deriving DecidableEq, Repr

/-- The method `String.prototype.includes`. -/
def includes (s term : String) : Bool := decide (term.data <:+: s.data)

/-- One operand `msg.f && msg.f.toLowerCase().includes(state.searchTerm)` of
the filter condition, as a truth value: a falsy field is falsy, a non-empty
string is searched, and any other truthy value has no `toLowerCase` method. -/
def fieldMatches (toLowerCase : String → String) (searchTerm : String) (field : String)
    (v : Value) : Completion Bool :=
  match v with
  | Value.str s =>
    if s = "" then Completion.returned false
    else Completion.returned (includes (toLowerCase s) searchTerm)
  | v =>
    if v.truthy then
      Completion.raised ("TypeError: msg." ++ field ++ ".toLowerCase is not a function")
    else Completion.returned false

/-- The values on which an operand of the filter condition can be evaluated:
strings and falsy values. -/
def searchable : Value → Bool
  | Value.str _ => true
  | v => !v.truthy

/-- The fields the filter condition reads, in its order. -/
def searchFields : List String := ["text", "from", "to", "id", "providerId"]

/-- The `||` chain of the filter condition over the fields in the order
given: the first truthy operand decides, an error ends the evaluation. -/
def anyFieldMatches (toLowerCase : String → String) (searchTerm : String) (msg : Record) :
    List String → Completion Bool
  | [] => Completion.returned false
  | field :: fields =>
    match fieldMatches toLowerCase searchTerm field (msg.get field) with
    | Completion.raised error => Completion.raised error
    | Completion.returned true => Completion.returned true
    | Completion.returned false => anyFieldMatches toLowerCase searchTerm msg fields

/-- `Array.prototype.filter` with a callback that may raise. -/
def filterLoop (callback : Record → Completion Bool) : List Record → Completion (List Record)
  | [] => Completion.returned []
  | msg :: rest =>
    match callback msg with
    | Completion.raised error => Completion.raised error
    | Completion.returned keep =>
      match filterLoop callback rest with
      | Completion.raised error => Completion.raised error
      | Completion.returned kept => Completion.returned (if keep then msg :: kept else kept)

/-- Filter messages based on search term. -/
def filterMessages (toLowerCase : String → String) (state : State) : Completion State :=
  if state.searchTerm = "" then
    Completion.returned { state with filteredMessages := state.messages }
  else
    match filterLoop (fun msg => anyFieldMatches toLowerCase state.searchTerm msg searchFields)
        state.messages with
    | Completion.raised error => Completion.raised error
    | Completion.returned kept => Completion.returned { state with filteredMessages := kept }

/-- The UTF-16 code units of a character: one unit for a character of the
basic plane, a surrogate pair for any other. -/
def utf16Units (c : Char) : List Nat :=
  if c.toNat < 65536 then [c.toNat]
  else [55296 + (c.toNat - 65536) / 1024, 56320 + (c.toNat - 65536) % 1024]

/-- The UTF-16 code units of a string. -/
def utf16 (s : String) : List Nat := s.data.flatMap utf16Units

/-- The comparison `a < b` of two strings in JavaScript: the lexicographic
order of their code units. -/
def jsLt (a b : String) : Bool :=
  decide (List.Lex (fun x y : Nat => x < y) (utf16 a) (utf16 b))

/-- The comparison function of `sortMessages`. -/
def compareMessages (toLowerCase : String → String) (sortDirection : String)
    (sortColumn : String) (a b : Record) : Int :=
  let aVal := a.get sortColumn
  let bVal := b.get sortColumn
  let aVal := if aVal = Value.null then Value.str "" else aVal
  let bVal := if bVal = Value.null then Value.str "" else bVal
  let aVal := toLowerCase aVal.toStr
  let bVal := toLowerCase bVal.toStr
  if jsLt aVal bVal then (if sortDirection = "asc" then -1 else 1)
  else if jsLt bVal aVal then (if sortDirection = "asc" then 1 else -1)
  else 0

/-- The key of a message in the words of the specification: the lower-cased
string form of its value in the sort column, `null` or `undefined` counting as
the empty string. -/
def statedSortKey (toLowerCase : String → String) (column : String) (msg : Record) : String :=
  match msg.get column with
  | Value.null => toLowerCase ""
  | v => toLowerCase v.toStr

/-- The order of the keys in the words of the specification: `a` is equal to
`b` or comes before it in the order of strings, which in JavaScript is the
lexicographic order of the code units. -/
def keyLe (a b : String) : Prop :=
  utf16 a = utf16 b ∨ List.Lex (fun x y : Nat => x < y) (utf16 a) (utf16 b)

/-- `Array.prototype.sort` with a comparison function: the stable sorted
arrangement, built by insertion. -/
def arraySort {α : Type} (compareFn : α → α → Int) (l : List α) : List α :=
  l.insertionSort (fun a b => compareFn a b ≤ 0)

/-- Sort messages based on current sort column and direction. -/
def sortMessages (toLowerCase : String → String) (state : State) : State :=
  match state.sortColumn with
  | none => state
  | some column =>
    if column = "" then state
    else
      { state with
        filteredMessages :=
          arraySort (compareMessages toLowerCase state.sortDirection column)
            state.filteredMessages }

/-- `Array.prototype.slice(start, end)`: a negative index counts from the
end, and both indices are clamped to the array. -/
def slice {α : Type} (l : List α) (start stop : Int) : List α :=
  let len : Int := l.length
  let k := if start < 0 then max (len + start) 0 else min start len
  let f := if stop < 0 then max (len + stop) 0 else min stop len
  (l.drop k.toNat).take (f - k).toNat

/-- The constant `pageMessages` of `renderTable`: the messages of the current
page. -/
def pageMessages (state : State) : List Record :=
  let start : Int := ((state.currentPage : Int) - 1) * state.pageSize
  let stop : Int := start + state.pageSize
  slice state.filteredMessages start stop

/-- Render table with current page of filtered messages: one row per message
of the page, built by `createMessageRow`. -/
def renderTable {ρ : Type} (createMessageRow : Record → ρ) (state : State) : List ρ :=
  (pageMessages state).map createMessageRow

/-- The page count `Math.ceil(state.filteredMessages.length / state.pageSize)`
of the pagination buttons, for a positive page size. -/
def totalPages (state : State) : Nat :=
  (state.filteredMessages.length + state.pageSize - 1) / state.pageSize

/-- A state whose only message has the numeric id 7, with the search term
`x` typed. -/
def numericIdState : State :=
  { messages := [[("id", Value.num 7), ("text", Value.null)]]
    filteredMessages := [[("id", Value.num 7), ("text", Value.null)]]
    currentPage := 1
    pageSize := 100
    sortColumn := none
    sortDirection := "asc"
    searchTerm := "x" }

/-- Three messages with the texts `b`, `A`, `c`, to be sorted on `text`. -/
def unsortedState : State :=
  { messages := [[("text", Value.str "b")], [("text", Value.str "A")], [("text", Value.str "c")]]
    filteredMessages :=
      [[("text", Value.str "b")], [("text", Value.str "A")], [("text", Value.str "c")]]
    currentPage := 1
    pageSize := 2
    sortColumn := some "text"
    sortDirection := "asc"
    searchTerm := "" }

end MessagesV2

namespace TableExport

/-! ## Reading a CSV field back -/

/-- Each doubled double quote replaced by one, reading from the left. -/
def undouble : List Char → List Char
  | [] => []
  | [c] => [c]
  | c :: d :: rest =>
    if c = quote ∧ d = quote then quote :: undouble rest
    else c :: undouble (d :: rest)

/-- A CSV field read back, in the words of the specification: the enclosing
double quotes are removed when present, and each doubled double quote is
replaced by one. -/
def readCSVField (field : String) : String :=
  let cs := field.data
  if 2 ≤ cs.length ∧ cs.head? = some quote ∧ cs.getLast? = some quote then
    String.mk (undouble (cs.drop 1).dropLast)
  else String.mk (undouble cs)

end TableExport

namespace TableGrouping

/-! ## Lemmas on the embedding -/

theorem forEachIdx_append {α β : Type} (f : List β → α → Nat → List β) (g : α → Nat → List β)
    (hf : ∀ s a i, f s a i = s ++ g a i) (xs : List α) (i : Nat) (s : List β) :
    forEachIdx f xs i s = s ++ flatMapIdxFrom g i xs := by
  induction xs generalizing i s with
  | nil => simp [forEachIdx, flatMapIdxFrom]
  | cons a as ih => simp [forEachIdx, flatMapIdxFrom, hf, ih]

theorem flatMapIdxFrom_singleton {α β : Type} (g : α → Nat → β) (xs : List α) (i : Nat) :
    flatMapIdxFrom (fun a i => [g a i]) i xs = mapIdxFrom g i xs := by
  induction xs generalizing i with
  | nil => rfl
  | cons a as ih => simp [flatMapIdxFrom, mapIdxFrom, ih]

theorem mapIdxFrom_length {α β : Type} (g : α → Nat → β) (xs : List α) (i : Nat) :
    (mapIdxFrom g i xs).length = xs.length := by
  induction xs generalizing i with
  | nil => rfl
  | cons a as ih => simp [mapIdxFrom, ih]

theorem mapIdxFrom_getElem? {α β : Type} (g : α → Nat → β) (xs : List α) (i k : Nat) :
    (mapIdxFrom g i xs)[k]? = (xs[k]?).map (fun a => g a (i + k)) := by
  induction xs generalizing i k with
  | nil => simp [mapIdxFrom]
  | cons a as ih =>
    cases k with
    | zero => simp [mapIdxFrom]
    | succ k => simp [mapIdxFrom, ih, Nat.add_assoc, Nat.add_comm 1 k]

theorem renderConcatGroup_eq (self : TableGrouping) (group : Group) (tbody : List Row)
    (columns : List String) (groupIndex : Nat) (options : Options) :
    renderConcatGroup self group tbody columns groupIndex options
      = tbody ++ concatRows self group columns groupIndex options := by
  unfold renderConcatGroup concatRows
  cases hp : group.parts with
  | none => 
    simp [childRows, mapIdxFrom]
  | some parts =>
    simp only [Option.getD_some]
    by_cases hE : self.expandedGroups.has ("concat-group-" ++ toString groupIndex) = true
    · by_cases hl : parts.length > 0
      · simp only [hE, hl, decide_True, Bool.and_self, if_true]
        rw [forEachIdx_append _ (fun part partIndex => [createChildRow part columns
          ("concat-group-" ++ toString groupIndex) (partIndex + 1) group.metadata.totalParts options])
          (fun _ _ _ => rfl)]
        rw [flatMapIdxFrom_singleton]
        simp [childRows]
      · have : parts = [] := by cases parts <;> simp_all
        subst this
        simp [hE, childRows, mapIdxFrom]
    · simp [hE]

theorem renderSingleMessage_eq (msg : Record) (tbody : List Row) (columns : List String)
    (options : Options) :
    renderSingleMessage msg tbody columns options
      = tbody ++ renderSingleMessage msg [] columns options := by
  simp [renderSingleMessage]

theorem renderGroupedMessages_eq (self : TableGrouping) (entries : List Group)
    (old : List Row) (columns : List String) (options : Options) :
    renderGroupedMessages self (some entries) old columns options
      = if entries = [] then [placeholderRow columns]
        else flatMapIdxFrom (entryRows self columns options) 0 entries := by
  unfold renderGroupedMessages
  by_cases h : entries = []
  · subst h; simp [clearBody]
  · have hl : entries.length ≠ 0 := by simpa using h
    simp only [hl, h, if_false]
    rw [forEachIdx_append _ (entryRows self columns options)]
    · simp [clearBody]
    · intro s a i
      unfold entryRows
      split
      · exact renderConcatGroup_eq ..
      · exact renderSingleMessage_eq ..

theorem renderSingleMessage_length (msg : Record) (columns : List String) (options : Options) :
    (renderSingleMessage msg [] columns options).length = 1 := by
  simp [renderSingleMessage]

theorem concatRows_length (self : TableGrouping) (group : Group) (columns : List String)
    (i : Nat) (options : Options) :
    (concatRows self group columns i options).length
      = if ("concat-group-" ++ toString i) ∈ self.expandedGroups
        then 1 + (group.parts.getD []).length else 1 := by
  unfold concatRows
  by_cases h : ("concat-group-" ++ toString i) ∈ self.expandedGroups
  · simp [JSSet.has, h, childRows, mapIdxFrom_length, Nat.add_comm]
  · simp [JSSet.has, h]

theorem entryRows_length (self : TableGrouping) (columns : List String) (options : Options)
    (g : Group) (i : Nat) :
    (entryRows self columns options g i).length
      = if g.type = "concat" ∧ ("concat-group-" ++ toString i) ∈ self.expandedGroups
        then 1 + (g.parts.getD []).length else 1 := by
  unfold entryRows
  by_cases hg : g.type = "concat"
  · simp only [hg, if_true, true_and]; exact concatRows_length ..
  · simp [hg, renderSingleMessage_length]

theorem flatMapIdxFrom_length {α β : Type} (g : α → Nat → List β) (xs : List α) (i : Nat) :
    (flatMapIdxFrom g i xs).length = (mapIdxFrom (fun a i => (g a i).length) i xs).sum := by
  induction xs generalizing i with
  | nil => rfl
  | cons a as ih => simp [flatMapIdxFrom, mapIdxFrom, ih]

theorem renderGroupedMessages_length (self : TableGrouping) (entries : List Group)
    (tbody : List Row) (columns : List String) (options : Options) (hne : entries ≠ []) :
    (renderGroupedMessages self (some entries) tbody columns options).length
      = (mapIdxFrom (fun (g : Group) i =>
          if g.type = "concat" ∧ ("concat-group-" ++ toString i) ∈ self.expandedGroups
          then 1 + (g.parts.getD []).length else 1) 0 entries).sum := by
  rw [renderGroupedMessages_eq, if_neg hne, flatMapIdxFrom_length]
  congr 2
  funext g i
  exact entryRows_length ..

theorem mapIdxFrom_const_one_sum {α : Type} (f : α → Nat → Nat) (h : ∀ a i, f a i = 1)
    (xs : List α) (i : Nat) : (mapIdxFrom f i xs).sum = xs.length := by
  induction xs generalizing i with
  | nil => rfl
  | cons a as ih => simp [mapIdxFrom, ih, h, Nat.add_comm]

theorem renderGroupedMessages_length_collapsed (self : TableGrouping) (entries : List Group)
    (tbody : List Row) (columns : List String) (options : Options)
    (hE : self.expandedGroups = []) (hne : entries ≠ []) :
    (renderGroupedMessages self (some entries) tbody columns options).length
      = entries.length := by
  rw [renderGroupedMessages_length _ _ _ _ _ hne]
  apply mapIdxFrom_const_one_sum
  intro g i
  simp [hE]

theorem forEachIdx_insertAfter (c : Record → Nat → Row) (i : Nat) (parts : List Record)
    (j : Nat) (tbody : List Row) (hi : i < tbody.length) :
    forEachIdx (fun tbody part partIndex => insertAfter i (c part partIndex) tbody) parts j tbody
      = tbody.take (i + 1) ++ (mapIdxFrom c j parts).reverse ++ tbody.drop (i + 1) := by
  induction parts generalizing j tbody with
  | nil => simp [forEachIdx, mapIdxFrom]
  | cons a as ih =>
    have hlen : i < (insertAfter i (c a j) tbody).length := by
      simp [insertAfter]; omega
    have htake : (insertAfter i (c a j) tbody).take (i + 1) = tbody.take (i + 1) := by
      unfold insertAfter
      rw [List.take_append_of_le_length (by simp; omega)]
      simp
    have hdrop : (insertAfter i (c a j) tbody).drop (i + 1) = c a j :: tbody.drop (i + 1) := by
      unfold insertAfter
      rw [List.drop_append_of_le_length (by simp; omega)]
      have : (List.take (i + 1) tbody).length = i + 1 := by simp; omega
      rw [List.drop_eq_nil_of_le (by omega)]
      simp
    simp only [forEachIdx, mapIdxFrom]
    rw [ih (j + 1) _ hlen, htake, hdrop]
    simp

theorem updateRow_length (f : Row → Row) (i : Nat) (rows : List Row) :
    (updateRow f i rows).length = rows.length := by
  induction rows generalizing i with
  | nil => cases i <;> rfl
  | cons r rs ih => cases i <;> simp [updateRow, ih]

theorem queryParentRow_eq_none {g : String} {rows : List Row} :
    queryParentRow g rows = none ↔ ∀ r ∈ rows, r.groupId ≠ some g := by
  induction rows with
  | nil => simp [queryParentRow]
  | cons r rs ih =>
    unfold queryParentRow
    by_cases h : r.groupId = some g
    · simp [h]
    · simp [h, ih]

/-- A found parent row splits the body around it. -/
theorem queryParentRow_eq_some {g : String} {rows : List Row} {p : Nat}
    (h : queryParentRow g rows = some p) :
    ∃ pre row post, rows = pre ++ row :: post ∧ pre.length = p ∧ row.groupId = some g ∧
      ∀ r ∈ pre, r.groupId ≠ some g := by
  induction rows generalizing p with
  | nil => simp [queryParentRow] at h
  | cons r rs ih =>
    unfold queryParentRow at h
    by_cases hr : r.groupId = some g
    · simp [hr] at h
      subst h
      exact ⟨[], r, rs, rfl, rfl, hr, by simp⟩
    · simp [hr] at h
      obtain ⟨q, hq, rfl⟩ := h
      obtain ⟨pre, row, post, rfl, hlen, hrow, hpre⟩ := ih hq
      refine ⟨r :: pre, row, post, rfl, by simp [hlen], hrow, ?_⟩
      intro x hx
      rcases List.mem_cons.mp hx with rfl | hx
      · exact hr
      · exact hpre x hx

theorem queryParentRow_split {g : String} (pre : List Row) (row : Row) (post : List Row)
    (hrow : row.groupId = some g) (hpre : ∀ r ∈ pre, r.groupId ≠ some g) :
    queryParentRow g (pre ++ row :: post) = some pre.length := by
  induction pre with
  | nil => simp [queryParentRow, hrow]
  | cons r rs ih =>
    have hr : r.groupId ≠ some g := hpre r (by simp)
    have := ih (fun x hx => hpre x (by simp [hx]))
    simp [queryParentRow, hr, this]

theorem updateRow_split (f : Row → Row) (pre : List Row) (row : Row) (post : List Row) :
    updateRow f pre.length (pre ++ row :: post) = pre ++ f row :: post := by
  induction pre with
  | nil => rfl
  | cons r rs ih => simp [updateRow, ih]

theorem JSSet.has_iff (s : JSSet) (x : String) : s.has x = true ↔ x ∈ s := by
  simp [JSSet.has]

theorem JSSet.mem_add (s : JSSet) (x y : String) : y ∈ s.add x ↔ y = x ∨ y ∈ s := by
  unfold JSSet.add
  by_cases h : x ∈ s
  · simp only [h, if_true]
    constructor
    · exact Or.inr
    · rintro (rfl | h') <;> assumption
  · simp [h, or_comm]

theorem JSSet.mem_delete (s : JSSet) (x y : String) : y ∈ s.delete x ↔ y ≠ x ∧ y ∈ s := by
  simp [JSSet.delete, and_comm]

/-- Expanding a collapsed group whose parent row is in the body. -/
theorem toggleGroup_expand_split (self : TableGrouping) (g : String) (group : Group)
    (columns : List String) (options : Options) (pre : List Row) (row : Row) (post : List Row)
    (hE : g ∉ self.expandedGroups) (hrow : row.groupId = some g)
    (hpre : ∀ r ∈ pre, r.groupId ≠ some g) :
    toggleGroup self g (pre ++ row :: post) group columns options
      = ({ expandedGroups := self.expandedGroups.add g },
         if group.parts.getD [] = [] then pre ++ row :: post
         else pre ++ Row.setIcon iconExpanded row ::
           ((childRows (group.parts.getD []) columns g group.metadata.totalParts options 0).reverse
             ++ post)) := by
  unfold toggleGroup
  have hhas : self.expandedGroups.has g = false := by simp [JSSet.has, hE]
  simp only [hhas, Bool.false_eq_true, if_false, queryParentRow_split pre row post hrow hpre]
  cases hp : group.parts with
  | none => simp
  | some parts =>
    by_cases hl : parts = []
    · subst hl; simp
    · have hpos : parts.length > 0 := List.length_pos.mpr hl
      simp only [hpos, if_true, Option.getD_some, hl, if_false]
      rw [forEachIdx_insertAfter _ _ _ _ _ (by simp)]
      have h1 : List.take (pre.length + 1) (pre ++ row :: post) = pre ++ [row] := by
        rw [List.take_append_eq_append_take]; simp
      have h2 : List.drop (pre.length + 1) (pre ++ row :: post) = post := by
        rw [List.drop_append_eq_append_drop]; simp
      rw [h1, h2]
      have := updateRow_split (Row.setIcon iconExpanded) pre row
        ((mapIdxFrom (fun part partIndex => createChildRow part columns g (partIndex + 1)
          group.metadata.totalParts options) 0 parts).reverse ++ post)
      simp only [List.append_assoc, List.singleton_append, List.cons_append,
        List.nil_append] at this ⊢
      rw [this]
      rfl

/-- Collapsing an expanded group whose parent row is in the body. -/
theorem toggleGroup_collapse_split (self : TableGrouping) (g : String) (group : Group)
    (columns : List String) (options : Options) (pre : List Row) (row : Row) (post : List Row)
    (hE : g ∈ self.expandedGroups) (hrow : row.groupId = some g)
    (hrow2 : row.parentGroup ≠ some g) (hpre : ∀ r ∈ pre, r.groupId ≠ some g) :
    toggleGroup self g (pre ++ row :: post) group columns options
      = ({ expandedGroups := self.expandedGroups.delete g },
         pre.filter (fun r => decide (r.parentGroup ≠ some g))
           ++ Row.setIcon iconCollapsed row ::
             post.filter (fun r => decide (r.parentGroup ≠ some g))) := by
  unfold toggleGroup
  have hhas : self.expandedGroups.has g = true := by simp [JSSet.has, hE]
  simp only [hhas, if_true]
  have hf : List.filter (fun r => decide (r.parentGroup ≠ some g)) (pre ++ row :: post)
      = pre.filter (fun r => decide (r.parentGroup ≠ some g)) ++ row ::
          post.filter (fun r => decide (r.parentGroup ≠ some g)) := by
    simp [List.filter_cons, hrow2]
  rw [hf]
  have hq := queryParentRow_split (pre.filter (fun r => decide (r.parentGroup ≠ some g))) row
    (post.filter (fun r => decide (r.parentGroup ≠ some g))) hrow
    (fun r hr => hpre r (List.mem_filter.mp hr).1)
  simp only [hq]
  rw [updateRow_split]

/-- Collapsing when no parent row carries the id. -/
theorem toggleGroup_collapse_no_parent (self : TableGrouping) (g : String) (group : Group)
    (columns : List String) (options : Options) (tbody : List Row)
    (hE : g ∈ self.expandedGroups) (hno : ∀ r ∈ tbody, r.groupId ≠ some g) :
    toggleGroup self g tbody group columns options
      = ({ expandedGroups := self.expandedGroups.delete g },
         tbody.filter (fun r => decide (r.parentGroup ≠ some g))) := by
  unfold toggleGroup
  have hhas : self.expandedGroups.has g = true := by simp [JSSet.has, hE]
  have hq : queryParentRow g (tbody.filter (fun r => decide (r.parentGroup ≠ some g))) = none :=
    queryParentRow_eq_none.mpr (fun r hr => hno r (List.mem_filter.mp hr).1)
  simp only [hhas, if_true, hq]

/-- Expanding when no parent row carries the id. -/
theorem toggleGroup_expand_no_parent (self : TableGrouping) (g : String) (group : Group)
    (columns : List String) (options : Options) (tbody : List Row)
    (hE : g ∉ self.expandedGroups) (hno : ∀ r ∈ tbody, r.groupId ≠ some g) :
    toggleGroup self g tbody group columns options
      = ({ expandedGroups := self.expandedGroups.add g }, tbody) := by
  unfold toggleGroup
  have hhas : self.expandedGroups.has g = false := by simp [JSSet.has, hE]
  simp only [hhas, Bool.false_eq_true, if_false, queryParentRow_eq_none.mpr hno]

theorem setIconNodes_eq_none (v : String) (ns : List Node) :
    setIconNodes v ns = none ↔ iconOfNodes ns = none := by
  induction ns with
  | nil => simp [setIconNodes, iconOfNodes]
  | cons n ns ih => cases n <;> simp [setIconNodes, iconOfNodes, ih]

theorem setIconNodes_icon (v : String) (ns ns' : List Node) (h : setIconNodes v ns = some ns') :
    iconOfNodes ns' = some v := by
  induction ns generalizing ns' with
  | nil => simp [setIconNodes] at h
  | cons n ns ih =>
    cases n <;> simp [setIconNodes] at h
    case expandIcon => subst h; rfl
    all_goals
      obtain ⟨a, ha, rfl⟩ := h
      simpa [iconOfNodes] using ih a ha

theorem setIconCells_eq_none (v : String) (cs : List Cell) :
    setIconCells v cs = none ↔ iconOfCells cs = none := by
  induction cs with
  | nil => simp [setIconCells, iconOfCells]
  | cons c cs ih =>
    cases h : setIconNodes v c.children with
    | none =>
      have := (setIconNodes_eq_none v c.children).mp h
      simp [setIconCells, iconOfCells, h, this, ih]
    | some ns =>
      have : iconOfNodes c.children ≠ none := fun hn =>
        by rw [(setIconNodes_eq_none v c.children).mpr hn] at h; cases h
      cases hc : iconOfNodes c.children with
      | none => exact absurd hc this
      | some w => simp [setIconCells, iconOfCells, h, hc]

theorem setIconCells_icon (v : String) (cs cs' : List Cell) (h : setIconCells v cs = some cs') :
    iconOfCells cs' = some v := by
  induction cs generalizing cs' with
  | nil => simp [setIconCells] at h
  | cons c cs ih =>
    cases hn : setIconNodes v c.children with
    | none =>
      simp [setIconCells, hn] at h
      obtain ⟨a, ha, rfl⟩ := h
      have := (setIconNodes_eq_none v c.children).mp hn
      simpa [iconOfCells, this] using ih a ha
    | some ns =>
      simp [setIconCells, hn] at h
      subst h
      simp [iconOfCells, setIconNodes_icon v _ _ hn]

/-- Setting the indicator rewrites the indicator the row has and adds none. -/
theorem Row.setIcon_icon (v : String) (row : Row) :
    (Row.setIcon v row).icon = row.icon.map (fun _ => v) := by
  unfold Row.setIcon Row.icon
  cases h : setIconCells v row.cells with
  | none => simp [(setIconCells_eq_none v row.cells).mp h]
  | some cs =>
    have h2 := setIconCells_icon v _ _ h
    cases hc : iconOfCells row.cells with
    | none => rw [(setIconCells_eq_none v row.cells).mpr hc] at h; cases h
    | some w => simp [h2]

theorem Row.setIcon_groupId (v : String) (row : Row) :
    (Row.setIcon v row).groupId = row.groupId := by
  unfold Row.setIcon; split <;> rfl

theorem Row.setIcon_parentGroup (v : String) (row : Row) :
    (Row.setIcon v row).parentGroup = row.parentGroup := by
  unfold Row.setIcon; split <;> rfl

theorem Row.setIcon_className (v : String) (row : Row) :
    (Row.setIcon v row).className = row.className := by
  unfold Row.setIcon; split <;> rfl

theorem mem_flatMapIdxFrom {α β : Type} (g : α → Nat → List β) (xs : List α) (i : Nat) (b : β) :
    b ∈ flatMapIdxFrom g i xs ↔ ∃ k a, xs[k]? = some a ∧ b ∈ g a (i + k) := by
  induction xs generalizing i with
  | nil => simp [flatMapIdxFrom]
  | cons x xs ih =>
    simp only [flatMapIdxFrom, List.mem_append, ih]
    constructor
    · rintro (h | ⟨k, a, hk, hb⟩)
      · exact ⟨0, x, by simp, by simpa using h⟩
      · exact ⟨k + 1, a, by simpa using hk, by
          have : i + (k + 1) = i + 1 + k := by omega
          rw [this]; exact hb⟩
    · rintro ⟨k, a, hk, hb⟩
      cases k with
      | zero =>
        simp at hk; subst hk
        left; simpa using hb
      | succ k =>
        right
        refine ⟨k, a, by simpa using hk, ?_⟩
        have : i + (k + 1) = i + 1 + k := by omega
        rw [this] at hb; exact hb

theorem flatMapIdxFrom_append {α β : Type} (g : α → Nat → List β) (xs ys : List α) (i : Nat) :
    flatMapIdxFrom g i (xs ++ ys)
      = flatMapIdxFrom g i xs ++ flatMapIdxFrom g (i + xs.length) ys := by
  induction xs generalizing i with
  | nil => simp [flatMapIdxFrom]
  | cons x xs ih =>
    have : i + 1 + xs.length = i + (xs.length + 1) := by omega
    show g x i ++ flatMapIdxFrom g (i + 1) (xs ++ ys) = _
    rw [ih, this]
    simp [flatMapIdxFrom]

theorem createParentRow_groupId (group : Group) (columns : List String) (x : String) (b : Bool)
    (options : Options) : (createParentRow group columns x b options).groupId = some x := rfl

theorem createParentRow_parentGroup (group : Group) (columns : List String) (x : String)
    (b : Bool) (options : Options) :
    (createParentRow group columns x b options).parentGroup = none := rfl

theorem createChildRow_groupId (part : Record) (columns : List String) (x : String) (k : Nat)
    (t : Int) (options : Options) : (createChildRow part columns x k t options).groupId = none :=
  rfl

theorem createChildRow_parentGroup (part : Record) (columns : List String) (x : String)
    (k : Nat) (t : Int) (options : Options) :
    (createChildRow part columns x k t options).parentGroup = some x := rfl

theorem mem_childRows {parts : List Record} {columns : List String} {x : String} {t : Int}
    {options : Options} {start : Nat} {r : Row}
    (h : r ∈ childRows parts columns x t options start) :
    r.groupId = none ∧ r.parentGroup = some x := by
  induction parts generalizing start with
  | nil => simp [childRows, mapIdxFrom] at h
  | cons p ps ih =>
    simp only [childRows, mapIdxFrom, List.mem_cons] at h
    rcases h with rfl | h
    · exact ⟨rfl, rfl⟩
    · exact ih h

/-- What a row of one rendered entry can be. -/
theorem mem_entryRows {self : TableGrouping} {columns : List String} {options : Options}
    {g : Group} {i : Nat} {r : Row} (h : r ∈ entryRows self columns options g i) :
    (r.groupId = none ∧ r.parentGroup = none) ∨
    (g.type = "concat" ∧ r = createParentRow g columns ("concat-group-" ++ toString i)
        (self.expandedGroups.has ("concat-group-" ++ toString i)) options) ∨
    (g.type = "concat" ∧ ("concat-group-" ++ toString i) ∈ self.expandedGroups ∧
      r.groupId = none ∧ r.parentGroup = some ("concat-group-" ++ toString i)) := by
  unfold entryRows at h
  by_cases hg : g.type = "concat"
  · simp only [hg, if_true, concatRows, List.mem_cons] at h
    rcases h with rfl | h
    · right; left; exact ⟨hg, rfl⟩
    · by_cases hE : self.expandedGroups.has ("concat-group-" ++ toString i) = true
      · simp only [hE, if_true] at h
        right; right
        exact ⟨hg, (JSSet.has_iff _ _).mp hE, mem_childRows h⟩
      · simp [hE] at h
  · simp only [hg, if_false, renderSingleMessage, List.nil_append, List.mem_singleton] at h
    left; subst h; exact ⟨rfl, rfl⟩

theorem parentRow_mem_entryRows (self : TableGrouping) (columns : List String)
    (options : Options) (g : Group) (i : Nat) (hg : g.type = "concat") :
    createParentRow g columns ("concat-group-" ++ toString i)
      (self.expandedGroups.has ("concat-group-" ++ toString i)) options
      ∈ entryRows self columns options g i := by
  simp [entryRows, hg, concatRows]

/-- What a row of a rendered table can be. -/
theorem mem_renderGroupedMessages {self : TableGrouping} {groupedData : Option (List Group)}
    {tbody : List Row} {columns : List String} {options : Options} {r : Row}
    (h : r ∈ renderGroupedMessages self groupedData tbody columns options) :
    (r.groupId = none ∧ r.parentGroup = none) ∨
    (∃ g x, r = createParentRow g columns x (self.expandedGroups.has x) options) ∨
    (∃ x, x ∈ self.expandedGroups ∧ r.groupId = none ∧ r.parentGroup = some x ∧
      ∃ r' ∈ renderGroupedMessages self groupedData tbody columns options,
        r'.groupId = some x) := by
  cases groupedData with
  | none =>
    simp only [renderGroupedMessages, clearBody, List.nil_append, List.mem_singleton] at h
    left; subst h; exact ⟨rfl, rfl⟩
  | some entries =>
    rw [renderGroupedMessages_eq] at h ⊢
    by_cases he : entries = []
    · simp only [he, if_true, List.mem_singleton] at h
      left; subst h; exact ⟨rfl, rfl⟩
    · simp only [he, if_false] at h ⊢
      obtain ⟨k, g, hk, hr⟩ := (mem_flatMapIdxFrom _ _ _ _).mp h
      rcases mem_entryRows hr with h1 | ⟨_, h2⟩ | ⟨hg, hE, h3, h4⟩
      · exact Or.inl h1
      · exact Or.inr (Or.inl ⟨g, _, h2⟩)
      · refine Or.inr (Or.inr ⟨_, hE, h3, h4,
          createParentRow g columns ("concat-group-" ++ toString (0 + k))
            (self.expandedGroups.has ("concat-group-" ++ toString (0 + k))) options, ?_, rfl⟩)
        exact (mem_flatMapIdxFrom _ _ _ _).mpr ⟨k, g, hk, parentRow_mem_entryRows _ _ _ g _ hg⟩

/-- The parent row of a concat entry is in the rendered table. -/
theorem parentRow_mem_renderGroupedMessages (self : TableGrouping) (entries : List Group)
    (tbody : List Row) (columns : List String) (options : Options) (i : Nat) (g : Group)
    (hi : entries[i]? = some g) (hg : g.type = "concat") :
    createParentRow g columns ("concat-group-" ++ toString i)
      (self.expandedGroups.has ("concat-group-" ++ toString i)) options
      ∈ renderGroupedMessages self (some entries) tbody columns options := by
  rw [renderGroupedMessages_eq]
  have he : entries ≠ [] := by rintro rfl; simp at hi
  simp only [he, if_false]
  refine (mem_flatMapIdxFrom _ _ _ _).mpr ⟨i, g, hi, ?_⟩
  simpa using parentRow_mem_entryRows self columns options g i hg

theorem parentCells_succ (group : Group) (b b' : Bool) (options : Options) (i : Nat)
    (columns : List String) :
    mapIdxFrom (fun col idx =>
      let icon : List Node :=
        if idx = 0 then [Node.expandIcon (if b then iconExpanded else iconCollapsed)]
        else []
      let val := cellVal group.message col
      if col = "text" then
        let maxLen := options.maxLen 19
        ({ colSpan := 1
           children := icon ++ [Node.messageDetails (textSpanOf val maxLen false)
             (some (badgeOf group.metadata)) false]
           fullText := some val
           title := ""
           hasBinary := false } : Cell)
      else
        { colSpan := 1
          children := icon ++ [Node.textNode val]
          fullText := none
          title := ""
          hasBinary := false }) (i + 1) columns
    = mapIdxFrom (fun col idx =>
      let icon : List Node :=
        if idx = 0 then [Node.expandIcon (if b' then iconExpanded else iconCollapsed)]
        else []
      let val := cellVal group.message col
      if col = "text" then
        let maxLen := options.maxLen 19
        ({ colSpan := 1
           children := icon ++ [Node.messageDetails (textSpanOf val maxLen false)
             (some (badgeOf group.metadata)) false]
           fullText := some val
           title := ""
           hasBinary := false } : Cell)
      else
        { colSpan := 1
          children := icon ++ [Node.textNode val]
          fullText := none
          title := ""
          hasBinary := false }) (i + 1) columns := by
  induction columns generalizing i with
  | nil => rfl
  | cons c cs ih =>
    simp only [mapIdxFrom]
    rw [ih (i + 1)]
    simp

/-- Setting the indicator of a parent row gives the parent row drawn with that
indicator. -/
theorem setIcon_createParentRow (group : Group) (columns : List String) (x : String)
    (b b' : Bool) (options : Options) :
    Row.setIcon (if b' then iconExpanded else iconCollapsed)
        (createParentRow group columns x b options)
      = createParentRow group columns x b' options := by
  cases columns with
  | nil => simp [Row.setIcon, createParentRow, mapIdxFrom, setIconCells]
  | cons c cs =>
    unfold Row.setIcon createParentRow
    simp only [mapIdxFrom]
    rw [parentCells_succ group b b' options 0 cs]
    by_cases hc : c = "text" <;> simp [hc, setIconCells, setIconNodes]

theorem filter_eq_self_of_no_child {g : String} {rows : List Row}
    (h : ∀ r ∈ rows, r.parentGroup ≠ some g) :
    rows.filter (fun r => decide (r.parentGroup ≠ some g)) = rows := by
  apply List.filter_eq_self.mpr
  intro r hr
  simpa using h r hr

theorem filter_childRows_reverse (parts : List Record) (columns : List String) (g : String)
    (t : Int) (options : Options) :
    (childRows parts columns g t options 0).reverse.filter
      (fun r => decide (r.parentGroup ≠ some g)) = [] := by
  apply List.filter_eq_nil_iff.mpr
  intro r hr
  have := mem_childRows (List.mem_reverse.mp hr)
  simp [this.2]

/-- A collapsed concat entry of a rendered table: the table splits around its
first parent row, which shows the collapsed indicator, and no row is tagged
as its child. -/
theorem rendered_collapsed_split (self : TableGrouping) (entries : List Group) (i : Nat)
    (g : Group) (tbody : List Row) (columns : List String) (options : Options)
    (hi : entries[i]? = some g) (hg : g.type = "concat")
    (hE : ("concat-group-" ++ toString i) ∉ self.expandedGroups) :
    ∃ pre g' post,
      renderGroupedMessages self (some entries) tbody columns options
        = pre ++ createParentRow g' columns ("concat-group-" ++ toString i) false options :: post
      ∧ (∀ r ∈ pre, r.groupId ≠ some ("concat-group-" ++ toString i))
      ∧ (∀ r ∈ pre, r.parentGroup ≠ some ("concat-group-" ++ toString i))
      ∧ (∀ r ∈ post, r.parentGroup ≠ some ("concat-group-" ++ toString i)) := by
  have hmem := parentRow_mem_renderGroupedMessages self entries tbody columns options i g hi hg
  have hnochild : ∀ r ∈ renderGroupedMessages self (some entries) tbody columns options,
      r.parentGroup ≠ some ("concat-group-" ++ toString i) := by
    intro r hr
    rcases mem_renderGroupedMessages hr with ⟨_, h⟩ | ⟨g', x, rfl⟩ | ⟨x, hx, _, h, _⟩
    · simp [h]
    · simp [createParentRow_parentGroup]
    · rw [h]; intro hc; cases hc; exact hE hx
  cases hq : queryParentRow ("concat-group-" ++ toString i)
      (renderGroupedMessages self (some entries) tbody columns options) with
  | none =>
    exact absurd (createParentRow_groupId g columns _ _ options)
      (queryParentRow_eq_none.mp hq _ hmem)
  | some p =>
    obtain ⟨pre, row, post, hsplit, _, hrow, hpre⟩ := queryParentRow_eq_some hq
    have hrowmem : row ∈ renderGroupedMessages self (some entries) tbody columns options := by
      rw [hsplit]; simp
    have hrow' : ∃ g', row = createParentRow g' columns ("concat-group-" ++ toString i) false
        options := by
      rcases mem_renderGroupedMessages hrowmem with ⟨h, _⟩ | ⟨g', x, hx⟩ | ⟨x, _, h, _⟩
      · rw [h] at hrow; cases hrow
      · have : x = "concat-group-" ++ toString i := by
          rw [hx, createParentRow_groupId] at hrow; exact Option.some.inj hrow
        subst this
        have hh : self.expandedGroups.has ("concat-group-" ++ toString i) = false := by
          simp [JSSet.has, hE]
        rw [hh] at hx
        exact ⟨g', hx⟩
      · rw [h] at hrow; cases hrow
    obtain ⟨g', rfl⟩ := hrow'
    refine ⟨pre, g', post, hsplit, hpre, ?_, ?_⟩
    · intro r hr; exact hnochild r (by rw [hsplit]; simp [hr])
    · intro r hr; exact hnochild r (by rw [hsplit]; simp [hr])

theorem createChildRow_label (part : Record) (columns : List String) (x : String) (k : Nat)
    (t : Int) (options : Options) (hc : columns ≠ []) :
    (createChildRow part columns x k t options).label
      = some ("[" ++ toString k ++ "/" ++ toString t ++ "] ") := by
  cases columns with
  | nil => exact absurd rfl hc
  | cons c cs =>
    by_cases h : c = "text" <;>
      simp [createChildRow, Row.label, mapIdxFrom, labelOfCells, labelOfNodes, h]

theorem entryRows_head (self : TableGrouping) (columns : List String) (options : Options)
    (g : Group) (i : Nat) :
    ∃ r rest, entryRows self columns options g i = r :: rest ∧ r.parentGroup = none := by
  unfold entryRows
  by_cases hg : g.type = "concat"
  · simp only [hg, if_true, concatRows]
    exact ⟨_, _, rfl, rfl⟩
  · simp only [hg, if_false, renderSingleMessage, List.nil_append]
    exact ⟨_, _, rfl, rfl⟩

theorem flatMapIdxFrom_entryRows_head (self : TableGrouping) (columns : List String)
    (options : Options) (entries : List Group) (i : Nat) (r : Row)
    (h : (flatMapIdxFrom (entryRows self columns options) i entries).head? = some r) :
    r.parentGroup = none := by
  cases entries with
  | nil => simp [flatMapIdxFrom] at h
  | cons g gs =>
    obtain ⟨r', rest, he, hr'⟩ := entryRows_head self columns options g i
    simp only [flatMapIdxFrom, he, List.cons_append, List.head?_cons, Option.some.injEq] at h
    subst h; exact hr'

/-- In a rendered table a row tagged as a child has its parent row. -/
theorem rendered_no_parent_no_child (self : TableGrouping) (groupedData : Option (List Group))
    (tbody : List Row) (columns : List String) (options : Options) (g : String)
    (hno : ∀ r ∈ renderGroupedMessages self groupedData tbody columns options,
      r.groupId ≠ some g) :
    ∀ r ∈ renderGroupedMessages self groupedData tbody columns options,
      r.parentGroup ≠ some g := by
  intro r hr
  rcases mem_renderGroupedMessages hr with ⟨_, h⟩ | ⟨g', x, rfl⟩ | ⟨x, _, _, h, r', hr', hx⟩
  · simp [h]
  · simp [createParentRow_parentGroup]
  · rw [h]; intro hc; cases hc; exact hno r' hr' hx

theorem updateRow_getElem? (f : Row → Row) (p : Nat) (rows : List Row) (j : Nat) :
    (updateRow f p rows)[j]? = (rows[j]?).map (fun r => if j = p then f r else r) := by
  induction rows generalizing p j with
  | nil => cases p <;> simp [updateRow]
  | cons r rs ih =>
    cases p with
    | zero =>
      cases j with
      | zero => simp [updateRow]
      | succ j => simp [updateRow]
    | succ p =>
      cases j with
      | zero => simp [updateRow]
      | succ j => simp [updateRow, ih]

/-- The state loop of `expandAll`: the ids it leaves in `expandedGroups`. -/
theorem mem_expandAll_loop (entries : List Group) (i : Nat) (self : TableGrouping) (x : String) :
    x ∈ (forEachIdx (fun (self : TableGrouping) (group : Group) index =>
        if group.type = "concat" then
          let groupId := "concat-group-" ++ toString index
          if !self.expandedGroups.has groupId then
            { expandedGroups := self.expandedGroups.add groupId }
          else self
        else self) entries i self).expandedGroups
      ↔ x ∈ self.expandedGroups ∨
        ∃ (k : Nat) (g : Group), entries[k]? = some g ∧ g.type = "concat" ∧ x = "concat-group-" ++ toString (i + k) := by
  induction entries generalizing i self with
  | nil => simp [forEachIdx]
  | cons e es ih =>
    simp only [forEachIdx]
    rw [ih]
    have hstep : ∀ y, y ∈ (if e.type = "concat" then
          let groupId := "concat-group-" ++ toString i
          if !self.expandedGroups.has groupId then
            ({ expandedGroups := self.expandedGroups.add groupId } : TableGrouping)
          else self
        else self).expandedGroups
        ↔ y ∈ self.expandedGroups ∨ (e.type = "concat" ∧ y = "concat-group-" ++ toString i) := by
      intro y
      by_cases he : e.type = "concat"
      · by_cases hh : self.expandedGroups.has ("concat-group-" ++ toString i) = true
        · have := (JSSet.has_iff _ _).mp hh
          simp only [he, hh, if_true, Bool.not_true, Bool.false_eq_true, if_false, true_and]
          constructor
          · exact Or.inl
          · rintro (h | rfl)
            · exact h
            · exact this
        · simp only [he, hh, if_true, Bool.not_false, true_and, JSSet.mem_add, Bool.not_eq_true]
          simp [hh, JSSet.mem_add, or_comm]
      · simp [he]
    rw [hstep]
    constructor
    · rintro ((h | ⟨he, rfl⟩) | ⟨k, g, hk, hg, rfl⟩)
      · exact Or.inl h
      · exact Or.inr ⟨0, e, by simp, he, by simp⟩
      · exact Or.inr ⟨k + 1, g, by simpa using hk, hg, by
          have : i + 1 + k = i + (k + 1) := by omega
          rw [this]⟩
    · rintro (h | ⟨k, g, hk, hg, rfl⟩)
      · exact Or.inl (Or.inl h)
      · cases k with
        | zero =>
          simp at hk; subst hk
          exact Or.inl (Or.inr ⟨hg, by simp⟩)
        | succ k =>
          refine Or.inr ⟨k, g, by simpa using hk, hg, ?_⟩
          have : i + 1 + k = i + (k + 1) := by omega
          rw [this]

theorem mem_expandAll (self : TableGrouping) (entries : List Group) (tbody : List Row)
    (columns : List String) (options : Options) (x : String) :
    x ∈ (expandAll self entries tbody columns options).1.expandedGroups
      ↔ x ∈ self.expandedGroups ∨
        ∃ (k : Nat) (g : Group), entries[k]? = some g ∧ g.type = "concat" ∧ x = "concat-group-" ++ toString k := by
  unfold expandAll
  simp only
  rw [mem_expandAll_loop]
  simp

theorem maxLen_eq_statedThreshold (options : Options) (dflt : Nat)
    (hopt : ∀ n, options.maxTruncate = some n → 0 ≤ n) :
    options.maxLen (dflt : Int) = (statedThreshold options dflt : Int) := by
  unfold Options.maxLen statedThreshold
  cases h : options.maxTruncate with
  | none => rfl
  | some n =>
    have := hopt n h
    by_cases h0 : n = 0
    · subst h0; simp
    · have hpos : 0 < n := by omega
      simp [h0, hpos, Int.toNat_of_nonneg this]

/-- The display rule of the text span for a natural threshold. -/
theorem textSpanOf_display (val : String) (m : Nat) (b : Bool) :
    (val.length ≤ m → (textSpanOf val (m : Int) b).textContent = val
        ∧ (textSpanOf val (m : Int) b).dataFulltext = none)
    ∧ (m < val.length →
        (textSpanOf val (m : Int) b).textContent = String.mk (val.data.take m) ++ "…"
        ∧ (textSpanOf val (m : Int) b).dataFulltext = some val) := by
  unfold textSpanOf
  constructor
  · intro h
    have : ¬ ((val.length : Int) > (m : Int)) := by omega
    simp [this]
  · intro h
    have : (val.length : Int) > (m : Int) := by omega
    simp [this, substring0]

theorem spanOfNodes_icon_append (icon : List Node) (rest : List Node)
    (h : ∀ n ∈ icon, ∃ v, n = Node.expandIcon v ∨ n = Node.partLabel v) :
    spanOfNodes (icon ++ rest) = spanOfNodes rest := by
  induction icon with
  | nil => rfl
  | cons n ns ih =>
    obtain ⟨v, hv | hv⟩ := h n (by simp)
    · subst hv; simp only [List.cons_append, spanOfNodes]
      exact ih (fun n hn => h n (by simp [hn]))
    · subst hv; simp only [List.cons_append, spanOfNodes]
      exact ih (fun n hn => h n (by simp [hn]))

theorem createParentRow_text_cell (group : Group) (columns : List String) (x : String)
    (b : Bool) (options : Options) (idx : Nat) (hcol : columns[idx]? = some "text") :
    ∃ cell, (createParentRow group columns x b options).cells[idx]? = some cell
      ∧ cell.fullText = some (cellVal group.message "text")
      ∧ cell.textSpan
          = some (textSpanOf (cellVal group.message "text") (options.maxLen 19) false) := by
  simp only [createParentRow, mapIdxFrom_getElem?, hcol, Option.map_some', if_true]
  refine ⟨_, rfl, rfl, ?_⟩
  · simp only [Cell.textSpan]
    rw [spanOfNodes_icon_append]
    · rfl
    · intro n hn
      split at hn
      · simp at hn; exact ⟨_, Or.inl hn⟩
      · simp at hn

theorem createChildRow_text_cell (part : Record) (columns : List String) (x : String)
    (k : Nat) (t : Int) (options : Options) (idx : Nat) (hcol : columns[idx]? = some "text") :
    ∃ cell, (createChildRow part columns x k t options).cells[idx]? = some cell
      ∧ cell.fullText = some (cellVal part "text")
      ∧ cell.textSpan = some (textSpanOf (cellVal part "text") (options.maxLen 40) true) := by
  simp only [createChildRow, mapIdxFrom_getElem?, hcol, Option.map_some', if_true]
  refine ⟨_, rfl, rfl, ?_⟩
  · simp only [Cell.textSpan]
    rw [spanOfNodes_icon_append]
    · rfl
    · intro n hn
      split at hn
      · simp at hn; exact ⟨_, Or.inr hn⟩
      · simp at hn

theorem singleMessageRow_text_cell (msg : Record) (columns : List String)
    (options : Options) (idx : Nat) (hcol : columns[idx]? = some "text") :
    ∃ cell, (singleMessageRow msg columns options).cells[idx]? = some cell
      ∧ cell.fullText = some (cellVal msg "text")
      ∧ cell.textSpan = some (textSpanOf (cellVal msg "text") (options.maxLen 19) false) := by
  simp only [singleMessageRow, mapIdxFrom_getElem?, hcol, Option.map_some', if_true]
  exact ⟨_, rfl, rfl, rfl⟩

theorem digitValue_digitChar (k : Nat) (hk : k < 10) : digitValue (Nat.digitChar k) = k := by
  interval_cases k <;> rfl

theorem readDigits_toDigitsCore (fuel n : Nat) (ds : List Char) (h : n < fuel) :
    readDigits 0 (Nat.toDigitsCore 10 fuel n ds) = readDigits n ds := by
  induction fuel generalizing n ds with
  | zero => omega
  | succ fuel ih =>
    unfold Nat.toDigitsCore
    by_cases h0 : n / 10 = 0
    · simp only [h0, if_true]
      have hn : n < 10 := by omega
      have hd := digitValue_digitChar (n % 10) (Nat.mod_lt n (by decide))
      rw [Nat.mod_eq_of_lt hn] at hd
      simp [readDigits, List.foldl, Nat.mod_eq_of_lt hn, hd]
    · simp only [h0, if_false]
      rw [ih (n / 10) _ (by omega)]
      simp only [readDigits, List.foldl, digitValue_digitChar _ (Nat.mod_lt n (by decide))]
      congr 1
      omega

theorem toString_nat_injective (a b : Nat) (h : toString a = toString b) : a = b := by
  have h' : (Nat.toDigits 10 a).asString = (Nat.toDigits 10 b).asString := h
  have h'' : Nat.toDigits 10 a = Nat.toDigits 10 b := by
    have := congrArg String.data h'
    simpa [List.asString] using this
  have ha := readDigits_toDigitsCore (a + 1) a [] (by omega)
  have hb := readDigits_toDigitsCore (b + 1) b [] (by omega)
  unfold Nat.toDigits at h''
  rw [h''] at ha
  rw [ha] at hb
  simpa [readDigits] using hb

theorem groupId_injective (i j : Nat)
    (h : "concat-group-" ++ toString i = "concat-group-" ++ toString j) : i = j := by
  apply toString_nat_injective
  have := congrArg String.data h
  simp only [String.data_append, List.append_cancel_left_eq] at this
  exact String.ext this

theorem expandable_ne_zero {idx : Nat} (h : idx ∈ expandableColumns) : idx ≠ 0 := by
  simp only [expandableColumns, List.mem_cons, List.mem_singleton, List.mem_nil_iff,
    or_false] at h
  omega

theorem singleMessageRow_expandable_cell (msg : Record) (columns : List String)
    (options : Options) (idx : Nat) (col : String) (hcol : columns[idx]? = some col)
    (hne : col ≠ "text") (hidx : idx ∈ expandableColumns) :
    (singleMessageRow msg columns options).cells[idx]?
      = some (if (cellVal msg col).length > 60 then
          { colSpan := 1
            children := [Node.markup
              ("<span class=\"truncated-cell\" title=\"Click to expand\" data-fulltext=\""
                ++ escapeHtml (cellVal msg col) ++ "\">"
                ++ escapeHtml (substring0 (cellVal msg col) 60) ++ "…</span>")]
            fullText := some (cellVal msg col)
            title := ""
            hasBinary := false }
        else
          { colSpan := 1
            children := [Node.markup
              ("<span class=\"truncated-cell\">" ++ escapeHtml (cellVal msg col) ++ "</span>")]
            fullText := some (cellVal msg col)
            title := ""
            hasBinary := false }) := by
  simp only [singleMessageRow, mapIdxFrom_getElem?, hcol, Option.map_some', hne, if_false,
    Nat.zero_add, hidx, if_true]

theorem createParentRow_plain_cell (group : Group) (columns : List String) (x : String)
    (b : Bool) (options : Options) (idx : Nat) (col : String)
    (hcol : columns[idx]? = some col) (hne : col ≠ "text") (hidx : idx ≠ 0) :
    (createParentRow group columns x b options).cells[idx]?
      = some { colSpan := 1
               children := [Node.textNode (cellVal group.message col)]
               fullText := none
               title := ""
               hasBinary := false } := by
  simp only [createParentRow, mapIdxFrom_getElem?, hcol, Option.map_some', hne, if_false,
    Nat.zero_add, hidx, List.nil_append]

theorem createChildRow_plain_cell (part : Record) (columns : List String) (x : String)
    (k : Nat) (t : Int) (options : Options) (idx : Nat) (col : String)
    (hcol : columns[idx]? = some col) (hne : col ≠ "text") (hidx : idx ≠ 0) :
    (createChildRow part columns x k t options).cells[idx]?
      = some { colSpan := 1
               children := [Node.textNode (cellVal part col)]
               fullText := none
               title := ""
               hasBinary := false } := by
  simp only [createChildRow, mapIdxFrom_getElem?, hcol, Option.map_some', hne, if_false,
    Nat.zero_add, hidx, List.nil_append]

theorem createParentRow_badge (group : Group) (columns : List String) (x : String)
    (b : Bool) (options : Options) (idx : Nat) (hcol : columns[idx]? = some "text") :
    ∃ cell, (createParentRow group columns x b options).cells[idx]? = some cell
      ∧ cell.badge = some (badgeOf group.metadata) := by
  simp only [createParentRow, mapIdxFrom_getElem?, hcol, Option.map_some', if_true]
  refine ⟨_, rfl, ?_⟩
  simp only [Cell.badge]
  split
  · rfl
  · rfl

theorem toggleGroup_state (self : TableGrouping) (g : String) (tbody : List Row)
    (group : Group) (columns : List String) (options : Options) :
    (toggleGroup self g tbody group columns options).1.expandedGroups
      = if g ∈ self.expandedGroups then self.expandedGroups.delete g
        else self.expandedGroups.add g := by
  unfold toggleGroup
  by_cases hE : g ∈ self.expandedGroups
  · have hhas : self.expandedGroups.has g = true := (JSSet.has_iff _ _).mpr hE
    simp only [hhas, if_true, hE]
    split <;> rfl
  · have hhas : self.expandedGroups.has g = false := by simp [JSSet.has, hE]
    simp only [hhas, Bool.false_eq_true, if_false, hE]
    split
    · split <;> rfl
    · rfl

theorem createParentRow_icon (group : Group) (columns : List String) (x : String) (b : Bool)
    (options : Options) (hc : columns ≠ []) :
    (createParentRow group columns x b options).icon
      = some (if b then iconExpanded else iconCollapsed) := by
  cases columns with
  | nil => exact absurd rfl hc
  | cons c cs =>
    unfold createParentRow Row.icon
    simp only [mapIdxFrom]
    by_cases h : c = "text" <;> simp [h, iconOfCells, iconOfNodes]

theorem rendered_parent_has_icon (self : TableGrouping) (groupedData : Option (List Group))
    (tbody : List Row) (columns : List String) (options : Options) (hc : columns ≠ [])
    (r : Row) (hr : r ∈ renderGroupedMessages self groupedData tbody columns options)
    (g : String) (hg : r.groupId = some g) :
    ∃ v, r.icon = some v := by
  rcases mem_renderGroupedMessages hr with ⟨h, _⟩ | ⟨grp, x, rfl⟩ | ⟨x, _, h, _⟩
  · rw [h] at hg; cases hg
  · exact ⟨_, createParentRow_icon grp columns x _ options hc⟩
  · rw [h] at hg; cases hg

theorem toggleGroup_collapse_parent (self : TableGrouping) (g : String) (tbody : List Row)
    (group : Group) (columns : List String) (options : Options)
    (hE : g ∈ self.expandedGroups) (j : Nat) (r' : Row)
    (hj : queryParentRow g (toggleGroup self g tbody group columns options).2 = some j)
    (hr' : (toggleGroup self g tbody group columns options).2[j]? = some r') :
    ∃ row ∈ tbody, row.groupId = some g ∧ r'.icon = row.icon.map (fun _ => iconCollapsed) := by
  have hhas : self.expandedGroups.has g = true := (JSSet.has_iff _ _).mpr hE
  cases hq : queryParentRow g (tbody.filter (fun r => decide (r.parentGroup ≠ some g))) with
  | none =>
    have hout : (toggleGroup self g tbody group columns options).2
        = tbody.filter (fun r => decide (r.parentGroup ≠ some g)) := by
      simp only [toggleGroup, hhas, if_true, hq]
    rw [hout, hq] at hj
    cases hj
  | some p =>
    have hout : (toggleGroup self g tbody group columns options).2
        = updateRow (Row.setIcon iconCollapsed) p
            (tbody.filter (fun r => decide (r.parentGroup ≠ some g))) := by
      simp only [toggleGroup, hhas, if_true, hq]
    rw [hout] at hj hr'
    obtain ⟨pre, row, post, hsplit, hlen, hrow, hpre⟩ := queryParentRow_eq_some hq
    have hmem : row ∈ tbody := by
      have : row ∈ tbody.filter (fun r => decide (r.parentGroup ≠ some g)) := by
        rw [hsplit]; simp
      exact (List.mem_filter.mp this).1
    rw [hsplit, ← hlen, updateRow_split] at hj hr'
    rw [queryParentRow_split pre _ post (by rw [Row.setIcon_groupId]; exact hrow) hpre] at hj
    cases hj
    simp only [List.getElem?_append_right (Nat.le_refl _), Nat.sub_self,
      List.getElem?_cons_zero, Option.some.injEq] at hr'
    subst hr'
    exact ⟨row, hmem, hrow, Row.setIcon_icon _ _⟩

theorem digitChar_safe (k : Nat) (hk : k < 10) :
    (!([0, 10, 12, 13, 34, 92].contains (Nat.digitChar k).toNat)) = true := by
  interval_cases k <;> decide

theorem toDigitsCore_safe (fuel n : Nat) (ds : List Char)
    (h : ds.all (fun c => !([0, 10, 12, 13, 34, 92].contains c.toNat)) = true) :
    (Nat.toDigitsCore 10 fuel n ds).all
      (fun c => !([0, 10, 12, 13, 34, 92].contains c.toNat)) = true := by
  induction fuel generalizing n ds with
  | zero => simpa [Nat.toDigitsCore] using h
  | succ fuel ih =>
    unfold Nat.toDigitsCore
    have hd := digitChar_safe (n % 10) (Nat.mod_lt n (by decide))
    have hcons : (Nat.digitChar (n % 10) :: ds).all
        (fun c => !([0, 10, 12, 13, 34, 92].contains c.toNat)) = true := by
      rw [List.all_cons, hd, h]; rfl
    by_cases h0 : n / 10 = 0
    · simp only [h0, if_true]
      exact hcons
    · simp only [h0, if_false]
      exact ih _ _ hcons

theorem selectorSafe_positional (i : Nat) :
    selectorSafe ("concat-group-" ++ toString i) = true := by
  unfold selectorSafe
  rw [String.data_append, List.all_append]
  have h1 : ("concat-group-".data.all
      (fun c => !([0, 10, 12, 13, 34, 92].contains c.toNat))) = true := by decide
  have h2 : ((toString i).data.all
      (fun c => !([0, 10, 12, 13, 34, 92].contains c.toNat))) = true := by
    show ((Nat.toDigits 10 i).asString.data.all _) = true
    simp only [List.asString]
    exact toDigitsCore_safe _ _ _ rfl
  rw [h1, h2]; rfl

theorem forEachIdx_page {α : Type} (f : Page → α → Nat → Page)
    (f' : TableGrouping → List Row → α → Nat → List Row)
    (hf : ∀ (page : Page) (a : α) (i : Nat),
      (f page a i).grouping = page.grouping
        ∧ (f page a i).tbody = f' page.grouping page.tbody a i)
    (xs : List α) (i : Nat) (page : Page) :
    (forEachIdx f xs i page).grouping = page.grouping
      ∧ (forEachIdx f xs i page).tbody
          = forEachIdx (f' page.grouping) xs i page.tbody := by
  induction xs generalizing i page with
  | nil => exact ⟨rfl, rfl⟩
  | cons a as ih =>
    simp only [forEachIdx]
    obtain ⟨h1, h2⟩ := ih (i + 1) (f page a i)
    rw [h1, h2, (hf page a i).1, (hf page a i).2]
    exact ⟨rfl, rfl⟩

theorem page_renderSingleMessage_eq (page : Page) (msg : Record) (columns : List String)
    (options : Options) :
    (page.renderSingleMessage msg columns options).grouping = page.grouping
      ∧ (page.renderSingleMessage msg columns options).tbody
          = renderSingleMessage msg page.tbody columns options :=
  ⟨rfl, rfl⟩

theorem page_renderConcatGroup_eq (page : Page) (group : Group) (columns : List String)
    (groupIndex : Nat) (options : Options) :
    (page.renderConcatGroup group columns groupIndex options).grouping = page.grouping
      ∧ (page.renderConcatGroup group columns groupIndex options).tbody
          = renderConcatGroup page.grouping group page.tbody columns groupIndex options := by
  unfold Page.renderConcatGroup renderConcatGroup
  cases group.parts with
  | none => exact ⟨rfl, rfl⟩
  | some parts =>
    simp only
    split
    · exact forEachIdx_page
        (fun (page : Page) part partIndex =>
          { page with
            tbody := page.tbody ++ [createChildRow part columns
              ("concat-group-" ++ toString groupIndex) (partIndex + 1)
              group.metadata.totalParts options] })
        (fun _ tbody part partIndex =>
          tbody ++ [createChildRow part columns ("concat-group-" ++ toString groupIndex)
            (partIndex + 1) group.metadata.totalParts options])
        (fun _ _ _ => ⟨rfl, rfl⟩) parts 0 _
    · exact ⟨rfl, rfl⟩

theorem page_renderGroupedMessages_eq (page : Page) (groupedData : Option (List Group))
    (columns : List String) (options : Options) :
    (page.renderGroupedMessages groupedData columns options).grouping = page.grouping
      ∧ (page.renderGroupedMessages groupedData columns options).tbody
          = renderGroupedMessages page.grouping groupedData page.tbody columns options := by
  unfold Page.renderGroupedMessages renderGroupedMessages
  cases groupedData with
  | none => exact ⟨rfl, rfl⟩
  | some entries =>
    simp only
    split
    · exact ⟨rfl, rfl⟩
    · exact forEachIdx_page
        (fun (page : Page) group index =>
          if group.type = "concat" then
            page.renderConcatGroup group columns index options
          else
            page.renderSingleMessage group.message columns options)
        (fun self tbody group index =>
          if group.type = "concat" then
            renderConcatGroup self group tbody columns index options
          else
            renderSingleMessage group.message tbody columns options)
        (fun page group index => by
          by_cases hg : group.type = "concat"
          · simp only [hg, if_true]
            exact page_renderConcatGroup_eq page group columns index options
          · simp only [hg, if_false]
            exact page_renderSingleMessage_eq page group.message columns options)
        entries 0 _

theorem run_render_grouping (columns : List String) (options : Options)
    (datas : List (Option (List Group))) (page : Page) :
    (page.run columns options (datas.map Call.renderGroupedMessages)).grouping
      = page.grouping := by
  induction datas generalizing page with
  | nil => rfl
  | cons d ds ih =>
    simp only [Page.run, List.map_cons, List.foldl_cons] at ih ⊢
    rw [ih]
    exact (page_renderGroupedMessages_eq page d columns options).1

/-! ## Claims -/

/-- C1 (the code at the scenario of the specification): toggling the collapsed
two-part group of a rendered table puts the child rows after the parent row in
reverse part order, `[2/2]` before `[1/2]`, whereas rendering the same data
with the group expanded puts `[1/2]` before `[2/2]`; the two bodies differ. -/
theorem toggleGroup_scenario_children_reversed :
    ((toggleGroup { expandedGroups := [] } "concat-group-1"
        (renderGroupedMessages { expandedGroups := [] } (some scenarioEntries) []
          scenarioColumns noOptions)
        scenarioGroup scenarioColumns noOptions).2.map Row.label
      = [none, none, some "[2/2] ", some "[1/2] "])
    ∧ ((renderGroupedMessages { expandedGroups := ["concat-group-1"] } (some scenarioEntries) []
          scenarioColumns noOptions).map Row.label
      = [none, none, some "[1/2] ", some "[2/2] "])
    ∧ (toggleGroup { expandedGroups := [] } "concat-group-1"
        (renderGroupedMessages { expandedGroups := [] } (some scenarioEntries) []
          scenarioColumns noOptions)
        scenarioGroup scenarioColumns noOptions).2
      ≠ renderGroupedMessages { expandedGroups := ["concat-group-1"] } (some scenarioEntries) []
          scenarioColumns noOptions := by
  decide

/-- C2: for a non-empty list of entries, the rendered table has as many rows
as the sum over the entries of 1 for a non-concat entry, 1 + parts.length for
a concat entry whose group id is in `expandedGroups` (a missing parts list
counting as empty), and 1 for a concat entry whose group id is not. -/
theorem renderGroupedMessages_row_count (self : TableGrouping) (entries : List Group)
    (tbody : List Row) (columns : List String) (options : Options) (hne : entries ≠ []) :
    (renderGroupedMessages self (some entries) tbody columns options).length
      = (mapIdxFrom (fun (g : Group) i =>
          if g.type = "concat" ∧ ("concat-group-" ++ toString i) ∈ self.expandedGroups
          then 1 + (g.parts.getD []).length else 1) 0 entries).sum :=
  renderGroupedMessages_length self entries tbody columns options hne

/-- Instance of `renderGroupedMessages_row_count` on the end-to-end scenario. -/
theorem renderGroupedMessages_row_count_witness :
    scenarioEntries ≠ [] ∧
    (renderGroupedMessages { expandedGroups := ["concat-group-1"] } (some scenarioEntries) []
        scenarioColumns noOptions).length
      = (mapIdxFrom (fun (g : Group) i =>
          if g.type = "concat" ∧
            ("concat-group-" ++ toString i) ∈ ["concat-group-1"]
          then 1 + (g.parts.getD []).length else 1) 0 scenarioEntries).sum :=
  ⟨by decide, renderGroupedMessages_row_count { expandedGroups := ["concat-group-1"] }
    scenarioEntries [] scenarioColumns noOptions (by decide)⟩

/-- C3 (as stated, at a table without columns): the child row of an expanded
one-part group carries no label, because the label lives in the cell of the
first column. -/
theorem renderGroupedMessages_no_columns_no_label :
    (renderGroupedMessages { expandedGroups := ["concat-group-1"] } (some scenarioEntries) []
        [] noOptions).map (fun r => (r.parentGroup, r.label))
      = [(none, none), (none, none), (some "concat-group-1", none),
         (some "concat-group-1", none)] := by
  decide

/-- C3 (amended): in the rendered table, the rows of an expanded concat entry
at position `pre.length` are its parent row, drawn expanded, directly followed
by its child rows, one per element of `parts` in array order and nothing in
between; the rows before the parent row are the rendering of the earlier
entries and the row after the last child, if any, is not a child row.  Child
row `k` (counted from 1) is tagged with the parent's group id and, when the
column list is not empty, carries the label `[k/T] ` with `T` the
`totalParts` of the metadata. -/
theorem renderGroupedMessages_expanded_children (self : TableGrouping) (pre : List Group)
    (g : Group) (post : List Group) (tbody : List Row) (columns : List String)
    (options : Options) (hg : g.type = "concat")
    (hE : ("concat-group-" ++ toString pre.length) ∈ self.expandedGroups) :
    ∃ children after,
      renderGroupedMessages self (some (pre ++ g :: post)) tbody columns options
        = (if pre = [] then [] else renderGroupedMessages self (some pre) tbody columns options)
          ++ createParentRow g columns ("concat-group-" ++ toString pre.length) true options
          :: (children ++ after)
      ∧ children.length = (g.parts.getD []).length
      ∧ (∀ k part, (g.parts.getD [])[k]? = some part →
          ∃ row, children[k]? = some row
            ∧ row = createChildRow part columns ("concat-group-" ++ toString pre.length) (k + 1)
                g.metadata.totalParts options
            ∧ row.parentGroup = some ("concat-group-" ++ toString pre.length)
            ∧ (columns ≠ [] → row.label
                = some ("[" ++ toString (k + 1) ++ "/" ++ toString g.metadata.totalParts ++ "] ")))
      ∧ (∀ r, after.head? = some r → r.parentGroup = none) := by
  refine ⟨childRows (g.parts.getD []) columns ("concat-group-" ++ toString pre.length)
      g.metadata.totalParts options 0,
    flatMapIdxFrom (entryRows self columns options) (pre.length + 1) post, ?_, ?_, ?_, ?_⟩
  · have hhas : self.expandedGroups.has ("concat-group-" ++ toString pre.length) = true :=
      (JSSet.has_iff _ _).mpr hE
    rw [renderGroupedMessages_eq, if_neg (by simp), flatMapIdxFrom_append]
    have hpre : flatMapIdxFrom (entryRows self columns options) 0 pre
        = if pre = [] then [] else renderGroupedMessages self (some pre) tbody columns options := by
      by_cases hp : pre = []
      · subst hp; rfl
      · rw [if_neg hp, renderGroupedMessages_eq, if_neg hp]
    rw [hpre]
    simp [flatMapIdxFrom, entryRows, hg, concatRows, hhas]
  · simp [childRows, mapIdxFrom_length]
  · intro k part hk
    refine ⟨_, ?_, rfl, rfl, fun hc => createChildRow_label _ _ _ _ _ _ hc⟩
    simp [childRows, mapIdxFrom_getElem?, hk]
  · intro r hr
    exact flatMapIdxFrom_entryRows_head self columns options post _ r hr

/-- Instance of `renderGroupedMessages_expanded_children` on the end-to-end scenario. -/
theorem renderGroupedMessages_expanded_children_witness :
    scenarioGroup.type = "concat" ∧
    ("concat-group-" ++ toString [scenarioSingle].length) ∈ ["concat-group-1"] ∧
    ∃ children after,
      renderGroupedMessages { expandedGroups := ["concat-group-1"] }
          (some ([scenarioSingle] ++ scenarioGroup :: [])) [] scenarioColumns noOptions
        = (if [scenarioSingle] = [] then []
            else renderGroupedMessages { expandedGroups := ["concat-group-1"] }
              (some [scenarioSingle]) [] scenarioColumns noOptions)
          ++ createParentRow scenarioGroup scenarioColumns
              ("concat-group-" ++ toString [scenarioSingle].length) true noOptions
          :: (children ++ after)
      ∧ children.length = (scenarioGroup.parts.getD []).length
      ∧ (∀ k part, (scenarioGroup.parts.getD [])[k]? = some part →
          ∃ row, children[k]? = some row
            ∧ row = createChildRow part scenarioColumns
                ("concat-group-" ++ toString [scenarioSingle].length) (k + 1)
                scenarioGroup.metadata.totalParts noOptions
            ∧ row.parentGroup = some ("concat-group-" ++ toString [scenarioSingle].length)
            ∧ (scenarioColumns ≠ [] → row.label
                = some ("[" ++ toString (k + 1) ++ "/"
                    ++ toString scenarioGroup.metadata.totalParts ++ "] ")))
      ∧ (∀ r, after.head? = some r → r.parentGroup = none) :=
  ⟨by decide, by decide,
    renderGroupedMessages_expanded_children { expandedGroups := ["concat-group-1"] }
      [scenarioSingle] scenarioGroup [] [] scenarioColumns noOptions (by decide) (by decide)⟩

/-- C4 (as stated, at the scenario): toggling the positional id of the Single
entry, which has no parent row in the rendered table, leaves the rows alone
but puts the id into `expandedGroups`. -/
theorem toggleGroup_flips_unknown_id :
    (∀ r ∈ renderGroupedMessages { expandedGroups := [] } (some scenarioEntries) []
        scenarioColumns noOptions, r.groupId ≠ some "concat-group-0")
    ∧ (toggleGroup { expandedGroups := [] } "concat-group-0"
        (renderGroupedMessages { expandedGroups := [] } (some scenarioEntries) []
          scenarioColumns noOptions)
        scenarioSingle scenarioColumns noOptions).1.expandedGroups = ["concat-group-0"]
    ∧ (toggleGroup { expandedGroups := [] } "concat-group-0"
        (renderGroupedMessages { expandedGroups := [] } (some scenarioEntries) []
          scenarioColumns noOptions)
        scenarioSingle scenarioColumns noOptions).1 ≠ { expandedGroups := [] } := by
  decide

/-- C4 (amended): toggling a selector-safe group id that has no parent row in
the rendered table returns with the row sequence exactly as it was, while
`expandedGroups` has the membership of that id flipped and every other
membership unchanged; every positional id `concat-group-<i>` is
selector-safe. -/
theorem toggleGroup_unknown_group (self : TableGrouping) (groupedData : Option (List Group))
    (tbody : List Row) (columns : List String) (options : Options) (g : String)
    (group : Group)
    (hno : ∀ r ∈ renderGroupedMessages self groupedData tbody columns options,
      r.groupId ≠ some g) :
    selectorSafe g = true →
    (toggleGroup self g (renderGroupedMessages self groupedData tbody columns options)
        group columns options).2
      = renderGroupedMessages self groupedData tbody columns options
    ∧ (g ∈ (toggleGroup self g (renderGroupedMessages self groupedData tbody columns options)
        group columns options).1.expandedGroups ↔ g ∉ self.expandedGroups)
    ∧ (∀ x, x ≠ g →
        (x ∈ (toggleGroup self g (renderGroupedMessages self groupedData tbody columns options)
          group columns options).1.expandedGroups ↔ x ∈ self.expandedGroups))
    ∧ ∀ i : Nat, selectorSafe ("concat-group-" ++ toString i) = true := by
  intro _
  by_cases hE : g ∈ self.expandedGroups
  · rw [toggleGroup_collapse_no_parent self g group columns options _ hE hno]
    refine ⟨filter_eq_self_of_no_child
      (rendered_no_parent_no_child self groupedData tbody columns options g hno), ?_, ?_,
      selectorSafe_positional⟩
    · simp [JSSet.mem_delete, hE]
    · intro x hx; simp [JSSet.mem_delete, hx]
  · rw [toggleGroup_expand_no_parent self g group columns options _ hE hno]
    refine ⟨rfl, ?_, ?_, selectorSafe_positional⟩
    · simp [JSSet.mem_add, hE]
    · intro x hx; simp [JSSet.mem_add, hx]

/-- Instance of `toggleGroup_unknown_group` on the end-to-end scenario. -/
theorem toggleGroup_unknown_group_witness :
    selectorSafe "concat-group-0" = true
    ∧ (∀ r ∈ renderGroupedMessages { expandedGroups := [] } (some scenarioEntries) []
        scenarioColumns noOptions, r.groupId ≠ some "concat-group-0")
    ∧ (toggleGroup { expandedGroups := [] } "concat-group-0"
        (renderGroupedMessages { expandedGroups := [] } (some scenarioEntries) []
          scenarioColumns noOptions) scenarioSingle scenarioColumns noOptions).2
      = renderGroupedMessages { expandedGroups := [] } (some scenarioEntries) []
          scenarioColumns noOptions :=
  ⟨by decide, by decide,
    (toggleGroup_unknown_group { expandedGroups := [] } (some scenarioEntries) []
      scenarioColumns noOptions "concat-group-0" scenarioSingle (by decide) (by decide)).1⟩

/-- C5: in a rendered table, toggling a collapsed concat group with k parts
adds exactly k rows, and toggling it again takes exactly these rows out: the
body is then the rendered body again, so the row count is back at its value
before the first toggle. -/
theorem toggleGroup_twice_row_count (self : TableGrouping) (entries : List Group) (i : Nat)
    (g : Group) (tbody : List Row) (columns : List String) (options : Options)
    (hi : entries[i]? = some g) (hg : g.type = "concat")
    (hE : ("concat-group-" ++ toString i) ∉ self.expandedGroups) :
    (toggleGroup self ("concat-group-" ++ toString i)
        (renderGroupedMessages self (some entries) tbody columns options)
        g columns options).2.length
      = (renderGroupedMessages self (some entries) tbody columns options).length
          + (g.parts.getD []).length
    ∧ (toggleGroup
        (toggleGroup self ("concat-group-" ++ toString i)
          (renderGroupedMessages self (some entries) tbody columns options) g columns options).1
        ("concat-group-" ++ toString i)
        (toggleGroup self ("concat-group-" ++ toString i)
          (renderGroupedMessages self (some entries) tbody columns options) g columns options).2
        g columns options).2
      = renderGroupedMessages self (some entries) tbody columns options := by
  obtain ⟨pre, g', post, hsplit, hpre, hpre2, hpost2⟩ :=
    rendered_collapsed_split self entries i g tbody columns options hi hg hE
  rw [hsplit]
  have h1 := toggleGroup_expand_split self ("concat-group-" ++ toString i) g columns options pre
    (createParentRow g' columns ("concat-group-" ++ toString i) false options) post hE rfl hpre
  rw [h1]
  have hin : ("concat-group-" ++ toString i) ∈
      self.expandedGroups.add ("concat-group-" ++ toString i) :=
    (JSSet.mem_add _ _ _).mpr (Or.inl rfl)
  have hicon : ∀ b, Row.setIcon iconCollapsed
      (createParentRow g' columns ("concat-group-" ++ toString i) b options)
      = createParentRow g' columns ("concat-group-" ++ toString i) false options := by
    intro b
    simpa using setIcon_createParentRow g' columns ("concat-group-" ++ toString i) b false options
  have hexp : Row.setIcon iconExpanded
      (createParentRow g' columns ("concat-group-" ++ toString i) false options)
      = createParentRow g' columns ("concat-group-" ++ toString i) true options := by
    simpa using setIcon_createParentRow g' columns ("concat-group-" ++ toString i) false true options
  by_cases hp : g.parts.getD [] = []
  · simp only [hp, if_true, List.length_nil, Nat.add_zero, true_and]
    rw [toggleGroup_collapse_split
      (TableGrouping.mk (self.expandedGroups.add ("concat-group-" ++ toString i)))
      ("concat-group-" ++ toString i) g columns options pre
      (createParentRow g' columns ("concat-group-" ++ toString i) false options) post hin rfl
      (by simp [createParentRow_parentGroup]) hpre]
    simp only [filter_eq_self_of_no_child hpre2, filter_eq_self_of_no_child hpost2, hicon]
  · simp only [hp, if_false]
    constructor
    · simp [childRows, mapIdxFrom_length]; omega
    · rw [hexp]
      rw [toggleGroup_collapse_split
        (TableGrouping.mk (self.expandedGroups.add ("concat-group-" ++ toString i)))
        ("concat-group-" ++ toString i) g columns options pre
        (createParentRow g' columns ("concat-group-" ++ toString i) true options)
        ((childRows (g.parts.getD []) columns ("concat-group-" ++ toString i)
          g.metadata.totalParts options 0).reverse ++ post) hin rfl
        (by simp [createParentRow_parentGroup]) hpre]
      simp only [filter_eq_self_of_no_child hpre2, List.filter_append,
        filter_eq_self_of_no_child hpost2, hicon, filter_childRows_reverse, List.nil_append]

/-- Instance of `toggleGroup_twice_row_count` on the end-to-end scenario. -/
theorem toggleGroup_twice_row_count_witness :
    scenarioEntries[1]? = some scenarioGroup ∧ scenarioGroup.type = "concat" ∧
    ("concat-group-" ++ toString 1) ∉ ({ expandedGroups := [] } : TableGrouping).expandedGroups ∧
    ((toggleGroup { expandedGroups := [] } ("concat-group-" ++ toString 1)
        (renderGroupedMessages { expandedGroups := [] } (some scenarioEntries) []
          scenarioColumns noOptions)
        scenarioGroup scenarioColumns noOptions).2.length
      = (renderGroupedMessages { expandedGroups := [] } (some scenarioEntries) []
          scenarioColumns noOptions).length + (scenarioGroup.parts.getD []).length
    ∧ (toggleGroup
        (toggleGroup { expandedGroups := [] } ("concat-group-" ++ toString 1)
          (renderGroupedMessages { expandedGroups := [] } (some scenarioEntries) []
            scenarioColumns noOptions) scenarioGroup scenarioColumns noOptions).1
        ("concat-group-" ++ toString 1)
        (toggleGroup { expandedGroups := [] } ("concat-group-" ++ toString 1)
          (renderGroupedMessages { expandedGroups := [] } (some scenarioEntries) []
            scenarioColumns noOptions) scenarioGroup scenarioColumns noOptions).2
        scenarioGroup scenarioColumns noOptions).2
      = renderGroupedMessages { expandedGroups := [] } (some scenarioEntries) []
          scenarioColumns noOptions) :=
  ⟨by decide, by decide, by decide,
    toggleGroup_twice_row_count { expandedGroups := [] } scenarioEntries 1 scenarioGroup []
      scenarioColumns noOptions (by decide) (by decide) (by decide)⟩

/-- C6 (as stated, at a table without columns): after collapsing the expanded
group the child rows are gone, but the parent row, which has no cell, shows no
collapsed indicator. -/
theorem toggleGroup_collapse_no_columns_no_indicator :
    (toggleGroup { expandedGroups := ["concat-group-1"] } "concat-group-1"
        (renderGroupedMessages { expandedGroups := ["concat-group-1"] } (some scenarioEntries)
          [] [] noOptions)
        scenarioGroup [] noOptions).2.map (fun r => (r.groupId, r.icon))
      = [(none, none), (some "concat-group-1", none)]
    ∧ ¬ ∃ r ∈ (toggleGroup { expandedGroups := ["concat-group-1"] } "concat-group-1"
        (renderGroupedMessages { expandedGroups := ["concat-group-1"] } (some scenarioEntries)
          [] [] noOptions)
        scenarioGroup [] noOptions).2, r.icon = some iconCollapsed := by
  decide

/-- C6 (amended): when the selector-safe group id `g` is in `expandedGroups`,
toggling `g` takes out of the table body exactly the rows tagged as children
of `g`: the remaining rows are all the other rows, in their order, each one
unchanged except that the first row carrying group id `g` (the parent row of
`g`) has had its indicator set; that parent row then shows the collapsed
indicator whenever it has an indicator at all, and it has one, so that it
shows the collapsed indicator, in every table rendered with at least one
column; every positional id `concat-group-<i>` is selector-safe. -/
theorem toggleGroup_collapse_frame (self : TableGrouping) (g : String) (tbody : List Row)
    (group : Group) (columns : List String) (options : Options)
    (hE : g ∈ self.expandedGroups) :
    selectorSafe g = true →
    (toggleGroup self g tbody group columns options).2.length
      = (tbody.filter (fun r => decide (r.parentGroup ≠ some g))).length
    ∧ (∀ j r, (tbody.filter (fun r => decide (r.parentGroup ≠ some g)))[j]? = some r →
        (toggleGroup self g tbody group columns options).2[j]?
          = some (if queryParentRow g (tbody.filter (fun r => decide (r.parentGroup ≠ some g)))
                = some j then Row.setIcon iconCollapsed r else r))
    ∧ (∀ j r', queryParentRow g (toggleGroup self g tbody group columns options).2 = some j →
        (toggleGroup self g tbody group columns options).2[j]? = some r' →
        r'.icon = none ∨ r'.icon = some iconCollapsed)
    ∧ (∀ (rendering : TableGrouping) (groupedData : Option (List Group)) (old : List Row)
        (renderColumns : List String) (renderOptions : Options),
        renderColumns ≠ [] →
        tbody = renderGroupedMessages rendering groupedData old renderColumns renderOptions →
        ∀ j r', queryParentRow g (toggleGroup self g tbody group columns options).2 = some j →
          (toggleGroup self g tbody group columns options).2[j]? = some r' →
          r'.icon = some iconCollapsed)
    ∧ (∀ i : Nat, selectorSafe ("concat-group-" ++ toString i) = true) := by
  intro _
  have hhas : self.expandedGroups.has g = true := (JSSet.has_iff _ _).mpr hE
  have hicon : ∀ j r',
      queryParentRow g (toggleGroup self g tbody group columns options).2 = some j →
      (toggleGroup self g tbody group columns options).2[j]? = some r' →
      r'.icon = none ∨ r'.icon = some iconCollapsed := by
    intro j r' hj hr'
    obtain ⟨row, _, _, hi⟩ :=
      toggleGroup_collapse_parent self g tbody group columns options hE j r' hj hr'
    rw [hi]
    cases row.icon <;> simp
  have hrendered : ∀ (rendering : TableGrouping) (groupedData : Option (List Group))
      (old : List Row) (renderColumns : List String) (renderOptions : Options),
      renderColumns ≠ [] →
      tbody = renderGroupedMessages rendering groupedData old renderColumns renderOptions →
      ∀ j r', queryParentRow g (toggleGroup self g tbody group columns options).2 = some j →
        (toggleGroup self g tbody group columns options).2[j]? = some r' →
        r'.icon = some iconCollapsed := by
    intro rendering groupedData old renderColumns renderOptions hc ht j r' hj hr'
    obtain ⟨row, hmem, hrow, hi⟩ :=
      toggleGroup_collapse_parent self g tbody group columns options hE j r' hj hr'
    rw [ht] at hmem
    obtain ⟨v, hv⟩ := rendered_parent_has_icon rendering groupedData old renderColumns
      renderOptions hc row hmem g hrow
    rw [hi, hv]
    rfl
  cases hq : queryParentRow g (tbody.filter (fun r => decide (r.parentGroup ≠ some g))) with
  | none =>
    have hout : (toggleGroup self g tbody group columns options).2
        = tbody.filter (fun r => decide (r.parentGroup ≠ some g)) := by
      simp only [toggleGroup, hhas, if_true, hq]
    refine ⟨by rw [hout], ?_, hicon, hrendered, selectorSafe_positional⟩
    rw [hout]
    intro j r hj; rw [if_neg (by simp)]; exact hj
  | some p =>
    have hout : (toggleGroup self g tbody group columns options).2
        = updateRow (Row.setIcon iconCollapsed) p
            (tbody.filter (fun r => decide (r.parentGroup ≠ some g))) := by
      simp only [toggleGroup, hhas, if_true, hq]
    refine ⟨by rw [hout]; exact updateRow_length _ _ _, ?_, hicon, hrendered,
      selectorSafe_positional⟩
    rw [hout]
    intro j r hj
    rw [updateRow_getElem?, hj]
    by_cases hjp : j = p
    · simp [hjp]
    · have : p ≠ j := fun h => hjp h.symm
      simp [hjp, this]

/-- Instance of `toggleGroup_collapse_frame` on the end-to-end scenario: the
expanded group is collapsed, its two part rows are gone, and its parent row,
at position 1, shows the collapsed indicator. -/
theorem toggleGroup_collapse_frame_witness :
    selectorSafe "concat-group-1" = true
    ∧ "concat-group-1" ∈ ["concat-group-1"]
    ∧ (toggleGroup { expandedGroups := ["concat-group-1"] } "concat-group-1"
        (renderGroupedMessages { expandedGroups := ["concat-group-1"] } (some scenarioEntries)
          [] scenarioColumns noOptions) scenarioGroup scenarioColumns noOptions).2.length
      = ((renderGroupedMessages { expandedGroups := ["concat-group-1"] } (some scenarioEntries)
          [] scenarioColumns noOptions).filter
            (fun r => decide (r.parentGroup ≠ some "concat-group-1"))).length
    ∧ queryParentRow "concat-group-1"
        (toggleGroup { expandedGroups := ["concat-group-1"] } "concat-group-1"
          (renderGroupedMessages { expandedGroups := ["concat-group-1"] }
            (some scenarioEntries) [] scenarioColumns noOptions)
          scenarioGroup scenarioColumns noOptions).2 = some 1
    ∧ (∀ r', (toggleGroup { expandedGroups := ["concat-group-1"] } "concat-group-1"
          (renderGroupedMessages { expandedGroups := ["concat-group-1"] }
            (some scenarioEntries) [] scenarioColumns noOptions)
          scenarioGroup scenarioColumns noOptions).2[1]? = some r' →
        r'.icon = some iconCollapsed) :=
  ⟨by decide, by decide,
    (toggleGroup_collapse_frame { expandedGroups := ["concat-group-1"] } "concat-group-1"
      (renderGroupedMessages { expandedGroups := ["concat-group-1"] } (some scenarioEntries)
        [] scenarioColumns noOptions) scenarioGroup scenarioColumns noOptions
      (by decide) (by decide)).1,
    by decide,
    fun r' hr' =>
      (toggleGroup_collapse_frame { expandedGroups := ["concat-group-1"] } "concat-group-1"
        (renderGroupedMessages { expandedGroups := ["concat-group-1"] } (some scenarioEntries)
          [] scenarioColumns noOptions) scenarioGroup scenarioColumns noOptions
        (by decide) (by decide)).2.2.2.1 { expandedGroups := ["concat-group-1"] }
        (some scenarioEntries) [] scenarioColumns noOptions (by decide) rfl 1 r' (by decide)
        hr'⟩

/-- C7 (as stated, at the empty list): rendering no entries with an empty
`expandedGroups` gives one row, the placeholder, not `entries.length = 0`
rows. -/
theorem renderGroupedMessages_empty_row_count :
    (renderGroupedMessages { expandedGroups := [] } (some []) [] scenarioColumns
        noOptions).length = 1
    ∧ (renderGroupedMessages { expandedGroups := [] } (some []) [] scenarioColumns
        noOptions).length ≠ ([] : List Group).length := by
  decide

/-- C7 (amended): for every non-empty list of entries, any mix of single and
concat entries, rendering with an empty `expandedGroups` yields exactly
`entries.length` rows. -/
theorem renderGroupedMessages_all_collapsed_row_count (self : TableGrouping)
    (entries : List Group) (tbody : List Row) (columns : List String) (options : Options)
    (hE : self.expandedGroups = []) (hne : entries ≠ []) :
    (renderGroupedMessages self (some entries) tbody columns options).length
      = entries.length :=
  renderGroupedMessages_length_collapsed self entries tbody columns options hE hne

/-- Instance of `renderGroupedMessages_all_collapsed_row_count` on the end-to-end scenario. -/
theorem renderGroupedMessages_all_collapsed_row_count_witness :
    ({ expandedGroups := [] } : TableGrouping).expandedGroups = [] ∧ scenarioEntries ≠ [] ∧
    (renderGroupedMessages { expandedGroups := [] } (some scenarioEntries) [] scenarioColumns
        noOptions).length = scenarioEntries.length :=
  ⟨rfl, by decide,
    renderGroupedMessages_all_collapsed_row_count { expandedGroups := [] } scenarioEntries []
      scenarioColumns noOptions rfl (by decide)⟩

/-- C8: for an empty or a missing entries list and any column list, whatever
the table body held before, the rendered body is exactly one row with a single
cell, whose column span is `columns.length` and whose text is
'No messages to display.'. -/
theorem renderGroupedMessages_placeholder (self : TableGrouping) (tbody : List Row)
    (columns : List String) (options : Options) :
    renderGroupedMessages self (some []) tbody columns options
      = renderGroupedMessages self none tbody columns options
    ∧ ∃ row cell,
        renderGroupedMessages self none tbody columns options = [row]
        ∧ row.cells = [cell]
        ∧ cell.colSpan = columns.length
        ∧ cell.children = [Node.textNode "No messages to display."]
        ∧ row.groupId = none ∧ row.parentGroup = none :=
  ⟨rfl, _, _, rfl, rfl, rfl, rfl, rfl, rfl⟩

/-- C9 (as stated, at index 0): the id under which the concat entry at
position 0 is looked up and recorded is not `group-0`: with `group-0` in
`expandedGroups` the entry is rendered collapsed, with `concat-group-0` it is
rendered expanded, and `expandAll` records `concat-group-0`. -/
theorem group_id_is_not_group_index :
    (renderGroupedMessages { expandedGroups := ["group-0"] } (some [scenarioGroup]) []
        scenarioColumns noOptions).map Row.icon = [some iconCollapsed]
    ∧ (renderGroupedMessages { expandedGroups := ["concat-group-0"] } (some [scenarioGroup]) []
        scenarioColumns noOptions).map Row.icon = [some iconExpanded, none, none]
    ∧ (expandAll { expandedGroups := [] } [scenarioGroup] [] scenarioColumns
        noOptions).1.expandedGroups = ["concat-group-0"]
    ∧ "concat-group-0" ≠ "group-" ++ toString 0 := by
  decide

/-- C9 (amended): for every index `i`, the group id of the concat entry at
position `i` is the string `concat-group-` followed by the decimal form of
`i`: `renderGroupedMessages` draws the entry's parent row under that id,
expanded and followed by the entry's child rows exactly when that id is in
`expandedGroups`, and `expandAll` leaves that id in `expandedGroups`, every id
in `expandedGroups` afterwards being one that was there before or such an id of
a concat entry. -/
theorem group_id_is_concat_group_index (self : TableGrouping) (pre : List Group) (g : Group)
    (post : List Group) (tbody : List Row) (columns : List String) (options : Options)
    (hg : g.type = "concat") :
    (∃ after,
      renderGroupedMessages self (some (pre ++ g :: post)) tbody columns options
        = (if pre = [] then [] else renderGroupedMessages self (some pre) tbody columns options)
          ++ createParentRow g columns ("concat-group-" ++ toString pre.length)
              (decide (("concat-group-" ++ toString pre.length) ∈ self.expandedGroups)) options
          :: ((if ("concat-group-" ++ toString pre.length) ∈ self.expandedGroups then
                childRows (g.parts.getD []) columns ("concat-group-" ++ toString pre.length)
                  g.metadata.totalParts options 0
               else []) ++ after)
      ∧ ∀ r, after.head? = some r → r.parentGroup = none)
    ∧ ("concat-group-" ++ toString pre.length)
        ∈ (expandAll self (pre ++ g :: post) tbody columns options).1.expandedGroups
    ∧ ∀ x ∈ (expandAll self (pre ++ g :: post) tbody columns options).1.expandedGroups,
        x ∈ self.expandedGroups ∨
        ∃ (k : Nat) (g' : Group), (pre ++ g :: post)[k]? = some g' ∧ g'.type = "concat"
          ∧ x = "concat-group-" ++ toString k := by
  refine ⟨⟨flatMapIdxFrom (entryRows self columns options) (pre.length + 1) post, ?_, ?_⟩, ?_, ?_⟩
  · rw [renderGroupedMessages_eq, if_neg (by simp), flatMapIdxFrom_append]
    have hpre : flatMapIdxFrom (entryRows self columns options) 0 pre
        = if pre = [] then [] else renderGroupedMessages self (some pre) tbody columns options := by
      by_cases hp : pre = []
      · subst hp; rfl
      · rw [if_neg hp, renderGroupedMessages_eq, if_neg hp]
    rw [hpre]
    by_cases hE : ("concat-group-" ++ toString pre.length) ∈ self.expandedGroups
    · simp [flatMapIdxFrom, entryRows, hg, concatRows, JSSet.has, hE]
    · simp [flatMapIdxFrom, entryRows, hg, concatRows, JSSet.has, hE]
  · intro r hr
    exact flatMapIdxFrom_entryRows_head self columns options post _ r hr
  · exact (mem_expandAll _ _ _ _ _ _).mpr (Or.inr ⟨pre.length, g,
      by rw [List.getElem?_append_right (Nat.le_refl _)]; simp, hg, rfl⟩)
  · intro x hx
    exact (mem_expandAll _ _ _ _ _ _).mp hx

/-- Instance of `group_id_is_concat_group_index` on the end-to-end scenario. -/
theorem group_id_is_concat_group_index_witness :
    scenarioGroup.type = "concat" ∧
    ("concat-group-" ++ toString [scenarioSingle].length)
      ∈ (expandAll { expandedGroups := [] } ([scenarioSingle] ++ scenarioGroup :: []) []
          scenarioColumns noOptions).1.expandedGroups :=
  ⟨by decide,
    (group_id_is_concat_group_index { expandedGroups := [] } [scenarioSingle] scenarioGroup []
      [] scenarioColumns noOptions (by decide)).2.1⟩

/-- C10 (as stated, at `maxTruncate = -1`): the value is not positive, so the
stated threshold is the default 19, under which the two-character text `hi`
would be shown whole; the code uses -1 itself and shows the ellipsis alone. -/
theorem text_column_negative_maxTruncate :
    statedThreshold { maxTruncate := some (-1) } 19 = 19
    ∧ (singleMessageRow [("text", Value.str "hi")] ["text"] { maxTruncate := some (-1) }).cells.map
        (fun cell => cell.textSpan.map (fun span => span.textContent)) = [some "…"]
    ∧ (createParentRow scenarioGroup ["text"] "concat-group-0" false
        { maxTruncate := some (-1) }).cells.map
        (fun cell => cell.textSpan.map (fun span => span.textContent)) = [some "…"]
    ∧ (createChildRow [("text", Value.str "ab")] ["text"] "concat-group-0" 1 2
        { maxTruncate := some (-1) }).cells.map
        (fun cell => cell.textSpan.map (fun span => span.textContent)) = [some "…"] := by
  decide

/-- C10 (amended): provided `options.maxTruncate` is not negative, the cell of
a `text` column shows its value by the threshold `m` that is
`options.maxTruncate` when a positive value is given and otherwise (value
missing or 0) 19 in parent and single rows and 40 in child rows: a value of
length at most `m` is displayed unmodified, without ellipsis; a longer value
is displayed as its first `m` characters followed by one `…`; in both cases
the cell keeps the complete value as its full text. -/
theorem text_column_truncation (group : Group) (part msg : Record) (columns : List String)
    (x : String) (b : Bool) (k : Nat) (t : Int) (options : Options) (tbody : List Row)
    (idx : Nat) (hopt : ∀ n, options.maxTruncate = some n → 0 ≤ n)
    (hcol : columns[idx]? = some "text") :
    (∃ cell span, (createParentRow group columns x b options).cells[idx]? = some cell
      ∧ cell.fullText = some (cellVal group.message "text")
      ∧ cell.textSpan = some span
      ∧ ((cellVal group.message "text").length ≤ statedThreshold options 19 →
          span.textContent = cellVal group.message "text" ∧ span.dataFulltext = none)
      ∧ (statedThreshold options 19 < (cellVal group.message "text").length →
          span.textContent
            = String.mk ((cellVal group.message "text").data.take (statedThreshold options 19))
              ++ "…"
          ∧ span.dataFulltext = some (cellVal group.message "text")))
    ∧ (∃ row cell span, renderSingleMessage msg tbody columns options = tbody ++ [row]
      ∧ row.cells[idx]? = some cell
      ∧ cell.fullText = some (cellVal msg "text")
      ∧ cell.textSpan = some span
      ∧ ((cellVal msg "text").length ≤ statedThreshold options 19 →
          span.textContent = cellVal msg "text" ∧ span.dataFulltext = none)
      ∧ (statedThreshold options 19 < (cellVal msg "text").length →
          span.textContent
            = String.mk ((cellVal msg "text").data.take (statedThreshold options 19)) ++ "…"
          ∧ span.dataFulltext = some (cellVal msg "text")))
    ∧ (∃ cell span, (createChildRow part columns x k t options).cells[idx]? = some cell
      ∧ cell.fullText = some (cellVal part "text")
      ∧ cell.textSpan = some span
      ∧ ((cellVal part "text").length ≤ statedThreshold options 40 →
          span.textContent = cellVal part "text" ∧ span.dataFulltext = none)
      ∧ (statedThreshold options 40 < (cellVal part "text").length →
          span.textContent
            = String.mk ((cellVal part "text").data.take (statedThreshold options 40)) ++ "…"
          ∧ span.dataFulltext = some (cellVal part "text"))) := by
  have h19 := maxLen_eq_statedThreshold options 19 hopt
  have h40 := maxLen_eq_statedThreshold options 40 hopt
  refine ⟨?_, ?_, ?_⟩
  · obtain ⟨cell, hc, hf, hs⟩ := createParentRow_text_cell group columns x b options idx hcol
    have h19' : options.maxLen 19 = (statedThreshold options 19 : Int) := h19
    rw [h19'] at hs
    exact ⟨cell, _, hc, hf, hs, textSpanOf_display _ _ _⟩
  · obtain ⟨cell, hc, hf, hs⟩ := singleMessageRow_text_cell msg columns options idx hcol
    have h19' : options.maxLen 19 = (statedThreshold options 19 : Int) := h19
    rw [h19'] at hs
    exact ⟨_, cell, _, rfl, hc, hf, hs, textSpanOf_display _ _ _⟩
  · obtain ⟨cell, hc, hf, hs⟩ := createChildRow_text_cell part columns x k t options idx hcol
    have h40' : options.maxLen 40 = (statedThreshold options 40 : Int) := h40
    rw [h40'] at hs
    exact ⟨cell, _, hc, hf, hs, textSpanOf_display _ _ _⟩

/-- Instance of `text_column_truncation` on the end-to-end scenario. -/
theorem text_column_truncation_witness :
    (∀ n, ({ maxTruncate := some 3 } : Options).maxTruncate = some n → 0 ≤ n)
    ∧ scenarioColumns[1]? = some "text"
    ∧ ∃ cell span,
        (createParentRow scenarioGroup scenarioColumns "concat-group-1" false
          { maxTruncate := some 3 }).cells[1]? = some cell
      ∧ cell.fullText = some (cellVal scenarioGroup.message "text")
      ∧ cell.textSpan = some span
      ∧ ((cellVal scenarioGroup.message "text").length
            ≤ statedThreshold { maxTruncate := some 3 } 19 →
          span.textContent = cellVal scenarioGroup.message "text" ∧ span.dataFulltext = none)
      ∧ (statedThreshold { maxTruncate := some 3 } 19
            < (cellVal scenarioGroup.message "text").length →
          span.textContent
            = String.mk ((cellVal scenarioGroup.message "text").data.take
                (statedThreshold { maxTruncate := some 3 } 19)) ++ "…"
          ∧ span.dataFulltext = some (cellVal scenarioGroup.message "text")) :=
  ⟨by intro n h; cases h; decide, by decide,
    (text_column_truncation scenarioGroup [] [] scenarioColumns "concat-group-1" false 1 2
      { maxTruncate := some 3 } [] 1 (by intro n h; cases h; decide) (by decide)).1⟩

/-- C11 (as stated, at a concat group): with a 61-character value in the
non-text column at position 2, the parent row and the child row show the value
whole, as a plain text node, and retain no full text; only the single row
cuts it. -/
theorem grouped_rows_show_expandable_column_whole :
    longColumns[2]? = some "note" ∧ 2 ∈ expandableColumns
    ∧ (cellVal longGroup.message "note").length = 61
    ∧ (createParentRow longGroup longColumns "concat-group-0" false noOptions).cells[2]?
        = some { colSpan := 1, children := [Node.textNode longValue], fullText := none,
                 title := "", hasBinary := false }
    ∧ (createChildRow [("id", Value.num 8), ("note", Value.str longValue)] longColumns
          "concat-group-0" 1 1 noOptions).cells[2]?
        = some { colSpan := 1, children := [Node.textNode longValue], fullText := none,
                 title := "", hasBinary := false } := by
  decide

/-- C11 (amended): in a single row, the cell of a non-text column at one of
the positions 2, 5, 7, 8, 9, 10, 12 keeps the complete value as its full text
and holds a `truncated-cell` span: when the value is longer than 60 characters
the span holds the (HTML-escaped) first 60 characters followed by `…`, and
otherwise the (HTML-escaped) whole value; this does not depend on
`options.maxTruncate`.  In a concat parent row and in a child row the cell of
such a column is the plain text node of the whole value, with no full text
retained. -/
theorem expandable_column_truncation (msg part : Record) (group : Group)
    (columns : List String) (x : String) (b : Bool) (k : Nat) (t : Int) (options : Options)
    (idx : Nat) (col : String) (hcol : columns[idx]? = some col) (hne : col ≠ "text")
    (hidx : idx ∈ expandableColumns) :
    (∃ cell, (singleMessageRow msg columns options).cells[idx]? = some cell
      ∧ cell.fullText = some (cellVal msg col)
      ∧ (60 < (cellVal msg col).length → cell.children = [Node.markup
          ("<span class=\"truncated-cell\" title=\"Click to expand\" data-fulltext=\""
            ++ escapeHtml (cellVal msg col) ++ "\">"
            ++ escapeHtml (String.mk ((cellVal msg col).data.take 60)) ++ "…</span>")])
      ∧ ((cellVal msg col).length ≤ 60 → cell.children = [Node.markup
          ("<span class=\"truncated-cell\">" ++ escapeHtml (cellVal msg col) ++ "</span>")]))
    ∧ (∃ cell, (createParentRow group columns x b options).cells[idx]? = some cell
      ∧ cell.fullText = none ∧ cell.children = [Node.textNode (cellVal group.message col)])
    ∧ (∃ cell, (createChildRow part columns x k t options).cells[idx]? = some cell
      ∧ cell.fullText = none ∧ cell.children = [Node.textNode (cellVal part col)]) := by
  refine ⟨?_, ?_, ?_⟩
  · rw [singleMessageRow_expandable_cell msg columns options idx col hcol hne hidx]
    by_cases hlen : (cellVal msg col).length > 60
    · refine ⟨_, rfl, ?_, ?_, ?_⟩
      · simp [hlen]
      · intro _; simp [hlen, substring0]
      · intro h; omega
    · refine ⟨_, rfl, ?_, ?_, ?_⟩
      · simp [hlen]
      · intro h; omega
      · intro _; simp [hlen]
  · rw [createParentRow_plain_cell group columns x b options idx col hcol hne
      (expandable_ne_zero hidx)]
    exact ⟨_, rfl, rfl, rfl⟩
  · rw [createChildRow_plain_cell part columns x k t options idx col hcol hne
      (expandable_ne_zero hidx)]
    exact ⟨_, rfl, rfl, rfl⟩

/-- Instance of `expandable_column_truncation` on the 61-character value. -/
theorem expandable_column_truncation_witness :
    longColumns[2]? = some "note" ∧ "note" ≠ "text" ∧ 2 ∈ expandableColumns
    ∧ ∃ cell, (singleMessageRow longGroup.message longColumns { maxTruncate := some 5 }).cells[2]?
        = some cell
      ∧ cell.fullText = some (cellVal longGroup.message "note")
      ∧ (60 < (cellVal longGroup.message "note").length → cell.children = [Node.markup
          ("<span class=\"truncated-cell\" title=\"Click to expand\" data-fulltext=\""
            ++ escapeHtml (cellVal longGroup.message "note") ++ "\">"
            ++ escapeHtml (String.mk ((cellVal longGroup.message "note").data.take 60))
            ++ "…</span>")])
      ∧ ((cellVal longGroup.message "note").length ≤ 60 → cell.children = [Node.markup
          ("<span class=\"truncated-cell\">" ++ escapeHtml (cellVal longGroup.message "note")
            ++ "</span>")]) :=
  ⟨by decide, by decide, by decide,
    (expandable_column_truncation longGroup.message [] longGroup longColumns "concat-group-0"
      false 1 1 { maxTruncate := some 5 } 2 "note" (by decide) (by decide) (by decide)).1⟩

/-- C12: in the parent row of a concat group with metadata
`{totalParts: t, receivedParts: r, complete: c}`, the badge of the text cell
reads the icon, ` CONCAT: `, `r`, `/`, `t`; the icon is ✓ and the badge class
`complete` when `c` is true, the icon is ⚠ and the class `incomplete` when
`c` is false, whatever `r` and `t` are. -/
theorem parent_badge_text (message : Record) (parts : Option (List Record)) (t r : Int)
    (c : Bool) (columns : List String) (x : String) (b : Bool) (options : Options)
    (idx : Nat) (hcol : columns[idx]? = some "text") :
    ∃ cell badge,
      (createParentRow
          { type := "concat", message := message, parts := parts,
            metadata := { totalParts := t, receivedParts := r, complete := c } }
          columns x b options).cells[idx]? = some cell
      ∧ cell.badge = some badge
      ∧ badge.textContent
          = (if c = true then "✓" else "⚠") ++ " CONCAT: " ++ toString r ++ "/" ++ toString t
      ∧ badge.statusClass = (if c = true then "complete" else "incomplete") := by
  obtain ⟨cell, hc, hb⟩ := createParentRow_badge
    { type := "concat", message := message, parts := parts,
      metadata := { totalParts := t, receivedParts := r, complete := c } }
    columns x b options idx hcol
  refine ⟨cell, _, hc, hb, ?_, ?_⟩
  · cases c <;> rfl
  · cases c <;> rfl

/-- Instance of `parent_badge_text` on the specification's two examples. -/
theorem parent_badge_text_witness :
    scenarioColumns[1]? = some "text"
    ∧ (∃ cell badge,
      (createParentRow
          { type := "concat", message := incompleteGroup.message, parts := incompleteGroup.parts,
            metadata := { totalParts := 5, receivedParts := 3, complete := false } }
          scenarioColumns "concat-group-0" false noOptions).cells[1]? = some cell
      ∧ cell.badge = some badge
      ∧ badge.textContent
          = (if false = true then "✓" else "⚠") ++ " CONCAT: " ++ toString (3 : Int) ++ "/"
              ++ toString (5 : Int)
      ∧ badge.statusClass = (if false = true then "complete" else "incomplete"))
    ∧ (createParentRow incompleteGroup scenarioColumns "concat-group-0" false noOptions).cells.map
        (fun cell => cell.badge.map (fun badge => (badge.textContent, badge.statusClass)))
        = [none, some ("⚠ CONCAT: 3/5", "incomplete")]
    ∧ (createParentRow scenarioGroup scenarioColumns "concat-group-1" false noOptions).cells.map
        (fun cell => cell.badge.map (fun badge => (badge.textContent, badge.statusClass)))
        = [none, some ("✓ CONCAT: 2/2", "complete")] :=
  ⟨by decide,
    parent_badge_text incompleteGroup.message incompleteGroup.parts 5 3 false scenarioColumns
      "concat-group-0" false noOptions 1 (by decide),
    by decide, by decide⟩

/-- C13: after `expandAll(entries)` the set `expandedGroups` holds exactly the
ids it held before together with the group id of every concat entry of
`entries`: every concat entry's id is a member, every id held before is still
a member, and the id of a non-concat entry is a member only if it was one
before. -/
theorem expandAll_adds_concat_ids (self : TableGrouping) (entries : List Group)
    (tbody : List Row) (columns : List String) (options : Options) :
    (∀ x, x ∈ (expandAll self entries tbody columns options).1.expandedGroups
        ↔ x ∈ self.expandedGroups ∨
          ∃ (k : Nat) (g : Group), entries[k]? = some g ∧ g.type = "concat"
            ∧ x = "concat-group-" ++ toString k)
    ∧ (∀ (k : Nat) (g : Group), entries[k]? = some g → g.type = "concat" →
        ("concat-group-" ++ toString k)
          ∈ (expandAll self entries tbody columns options).1.expandedGroups)
    ∧ (∀ (k : Nat) (g : Group), entries[k]? = some g → g.type ≠ "concat" →
        ("concat-group-" ++ toString k) ∉ self.expandedGroups →
        ("concat-group-" ++ toString k)
          ∉ (expandAll self entries tbody columns options).1.expandedGroups)
    ∧ (∀ x ∈ self.expandedGroups,
        x ∈ (expandAll self entries tbody columns options).1.expandedGroups) := by
  refine ⟨fun x => mem_expandAll self entries tbody columns options x, ?_, ?_, ?_⟩
  · intro k g hk hg
    exact (mem_expandAll _ _ _ _ _ _).mpr (Or.inr ⟨k, g, hk, hg, rfl⟩)
  · intro k g hk hg hS hmem
    rcases (mem_expandAll _ _ _ _ _ _).mp hmem with h | ⟨k', g', hk', hg', heq⟩
    · exact hS h
    · have := groupId_injective k k' heq
      subst this
      rw [hk] at hk'
      cases hk'
      exact hg hg'
  · intro x hx
    exact (mem_expandAll _ _ _ _ _ _).mpr (Or.inl hx)

/-- C14: `collapseAll` leaves `expandedGroups` empty whatever it held before,
and a second `collapseAll` on the result, with the same data, leaves the same
empty set and the same rows as the first. -/
theorem collapseAll_idempotent (self : TableGrouping) (groupedData : Option (List Group))
    (tbody : List Row) (columns : List String) (options : Options) :
    (collapseAll self groupedData tbody columns options).1.expandedGroups = []
    ∧ collapseAll (collapseAll self groupedData tbody columns options).1 groupedData
        (collapseAll self groupedData tbody columns options).2 columns options
      = collapseAll self groupedData tbody columns options := by
  constructor
  · rfl
  · simp only [collapseAll, JSSet.clear, renderGroupedMessages, clearBody]

/-- C15 (as stated, at the scenario): `collapseAll` on the table rendered with
the group expanded leaves 2 rows where there were 4, and `expandAll` on the
table rendered with the group collapsed leaves 4 rows where there were 2. -/
theorem expandAll_collapseAll_change_rows :
    (renderGroupedMessages { expandedGroups := ["concat-group-1"] } (some scenarioEntries) []
        scenarioColumns noOptions).length = 4
    ∧ (collapseAll { expandedGroups := ["concat-group-1"] } (some scenarioEntries)
        (renderGroupedMessages { expandedGroups := ["concat-group-1"] } (some scenarioEntries)
          [] scenarioColumns noOptions) scenarioColumns noOptions).2.length = 2
    ∧ (renderGroupedMessages { expandedGroups := [] } (some scenarioEntries) []
        scenarioColumns noOptions).length = 2
    ∧ (expandAll { expandedGroups := [] } scenarioEntries
        (renderGroupedMessages { expandedGroups := [] } (some scenarioEntries) []
          scenarioColumns noOptions) scenarioColumns noOptions).2.length = 4 := by
  decide

/-- C15 (amended): `expandAll` and `collapseAll` change `expandedGroups` and
then render: the table body after the call is the body `renderGroupedMessages`
produces from the given data under the new set, whatever the body held
before. -/
theorem expandAll_collapseAll_render (self : TableGrouping) (entries : List Group)
    (groupedData : Option (List Group)) (tbody other : List Row) (columns : List String)
    (options : Options) :
    (expandAll self entries tbody columns options).2
      = renderGroupedMessages (expandAll self entries tbody columns options).1 (some entries)
          other columns options
    ∧ (collapseAll self groupedData tbody columns options).2
      = renderGroupedMessages (collapseAll self groupedData tbody columns options).1
          groupedData other columns options := by
  constructor
  · simp only [expandAll, renderGroupedMessages, clearBody]
  · simp only [collapseAll, renderGroupedMessages, clearBody]

/-- C16: `renderGroupedMessages` never changes `expandedGroups`: followed
through `renderGroupedMessages`, `renderConcatGroup` and `renderSingleMessage`
statement by statement, a call on any data (entries, the empty list or no list
at all, replacing whatever the body held) returns the module object with the
set it had, the body being the rendered one; so after any number of successive
renders the set is the one before the first of them. -/
theorem render_keeps_expandedGroups (columns : List String) (options : Options)
    (page : Page) :
    (∀ groupedData : Option (List Group),
        (page.renderGroupedMessages groupedData columns options).grouping.expandedGroups
          = page.grouping.expandedGroups
        ∧ (page.renderGroupedMessages groupedData columns options).tbody
          = renderGroupedMessages page.grouping groupedData page.tbody columns options)
    ∧ (∀ (group : Group) (groupIndex : Nat),
        (page.renderConcatGroup group columns groupIndex options).grouping.expandedGroups
          = page.grouping.expandedGroups)
    ∧ (∀ datas : List (Option (List Group)),
        (page.run columns options
            (datas.map Call.renderGroupedMessages)).grouping.expandedGroups
          = page.grouping.expandedGroups) := by
  refine ⟨fun groupedData => ?_, fun group groupIndex => ?_, fun datas => ?_⟩
  · obtain ⟨h1, h2⟩ := page_renderGroupedMessages_eq page groupedData columns options
    exact ⟨by rw [h1], h2⟩
  · rw [(page_renderConcatGroup_eq page group columns groupIndex options).1]
  · rw [run_render_grouping]

/-- C17: `toggleGroup` on `g` flips the membership of `g` in `expandedGroups`
and of no other id: the set afterwards is the one before without `g` when
`g` was a member and the one before with `g` added otherwise; a second
`toggleGroup` on `g`, on any table body, restores every membership. -/
theorem toggleGroup_flips_membership (self : TableGrouping) (g : String)
    (tbody tbody2 : List Row) (group group2 : Group) (columns : List String)
    (options : Options) :
    (g ∈ (toggleGroup self g tbody group columns options).1.expandedGroups
        ↔ g ∉ self.expandedGroups)
    ∧ (∀ x, x ≠ g →
        (x ∈ (toggleGroup self g tbody group columns options).1.expandedGroups
          ↔ x ∈ self.expandedGroups))
    ∧ (g ∈ self.expandedGroups →
        (toggleGroup self g tbody group columns options).1.expandedGroups
          = self.expandedGroups.filter (fun y => decide (y ≠ g)))
    ∧ (g ∉ self.expandedGroups →
        (toggleGroup self g tbody group columns options).1.expandedGroups
          = self.expandedGroups ++ [g])
    ∧ (∀ x, x ∈ (toggleGroup (toggleGroup self g tbody group columns options).1 g tbody2
          group2 columns options).1.expandedGroups ↔ x ∈ self.expandedGroups) := by
  have h1 := toggleGroup_state self g tbody group columns options
  have h2 := toggleGroup_state (toggleGroup self g tbody group columns options).1 g tbody2
    group2 columns options
  by_cases hE : g ∈ self.expandedGroups
  · simp only [hE, if_true] at h1
    have hnot : g ∉ (toggleGroup self g tbody group columns options).1.expandedGroups := by
      rw [h1]; simp [JSSet.mem_delete]
    simp only [hnot, if_false] at h2
    refine ⟨?_, ?_, ?_, ?_, ?_⟩
    · simp [hnot, hE]
    · intro x hx; rw [h1]; simp [JSSet.mem_delete, hx]
    · intro _; rw [h1]; rfl
    · intro h; exact absurd hE h
    · intro x
      rw [h2, JSSet.mem_add, h1, JSSet.mem_delete]
      by_cases hx : x = g
      · subst hx; simp [hE]
      · simp [hx]
  · simp only [hE, if_false] at h1
    have hin : g ∈ (toggleGroup self g tbody group columns options).1.expandedGroups := by
      rw [h1]; simp [JSSet.mem_add]
    simp only [hin, if_true] at h2
    refine ⟨?_, ?_, ?_, ?_, ?_⟩
    · simp [hin, hE]
    · intro x hx; rw [h1]; simp [JSSet.mem_add, hx]
    · intro h; exact absurd h hE
    · intro _; rw [h1]; simp [JSSet.add, hE]
    · intro x
      rw [h2, JSSet.mem_delete, h1, JSSet.mem_add]
      by_cases hx : x = g
      · subst hx; simp [hE]
      · simp [hx]

/-- C18 (the code at a concat group without parts): toggling the collapsed
group puts its id into `expandedGroups` but leaves the collapsed mark on its
parent row, whereas `renderGroupedMessages` draws the expanded mark for that
state. -/
theorem toggleGroup_no_parts_indicator_stale :
    (toggleGroup { expandedGroups := [] } "concat-group-0"
        (renderGroupedMessages { expandedGroups := [] } (some [emptyGroup]) []
          scenarioColumns noOptions)
        emptyGroup scenarioColumns noOptions).1.expandedGroups = ["concat-group-0"]
    ∧ (toggleGroup { expandedGroups := [] } "concat-group-0"
        (renderGroupedMessages { expandedGroups := [] } (some [emptyGroup]) []
          scenarioColumns noOptions)
        emptyGroup scenarioColumns noOptions).2.map (fun r => (r.groupId, r.icon))
      = [(some "concat-group-0", some iconCollapsed)]
    ∧ (renderGroupedMessages { expandedGroups := ["concat-group-0"] } (some [emptyGroup]) []
        scenarioColumns noOptions).map (fun r => (r.groupId, r.icon))
      = [(some "concat-group-0", some iconExpanded)] := by
  decide

end TableGrouping

namespace TableExport

open TableGrouping

/-! ## Lemmas on the export helpers -/

theorem foldl_append_data (l : List String) (acc : String) :
    (l.foldl (fun r s => r ++ s) acc).data = acc.data ++ l.flatMap (fun s => s.data) := by
  induction l generalizing acc with
  | nil => simp
  | cons s ss ih => simp [List.foldl_cons, ih, List.flatMap_cons, String.data_append]

theorem replaceAllChar_data (c : Char) (r : String) (s : String) :
    (replaceAllChar c r s).data = s.data.flatMap (fun d => if d = c then r.data else [d]) := by
  unfold replaceAllChar String.join
  rw [foldl_append_data]
  show ([] : List Char) ++ _ = _
  rw [List.nil_append]
  induction s.data with
  | nil => rfl
  | cons d ds ih =>
    simp only [List.map_cons, List.flatMap_cons, ih]
    by_cases h : d = c <;> simp [h, String.singleton]

theorem escapeCSV_of_ne_null (v : Value) (hv : v ≠ Value.null) :
    escapeCSV v
      = if v.toStr.data.contains comma || v.toStr.data.contains newline
            || v.toStr.data.contains quote
        then String.singleton quote
          ++ replaceAllChar quote (String.mk [quote, quote]) v.toStr
          ++ String.singleton quote
        else v.toStr := by
  cases v with
  | null => exact absurd rfl hv
  | str s => rfl
  | num n => rfl
  | bool b => rfl

theorem lookup_filter_key (p : String → Bool) (msg : Record) (k : String) :
    (msg.filter (fun kv => p kv.1)).lookup k = if p k then msg.lookup k else none := by
  induction msg with
  | nil => simp
  | cons kv rest ih =>
    obtain ⟨k', v'⟩ := kv
    by_cases hp : p k' = true
    · simp only [List.filter_cons, hp, if_true, List.lookup_cons]
      by_cases hk : k = k'
      · subst hk; simp [hp]
      · have : (k == k') = false := by simpa using hk
        simp only [this, ih]
    · have hp' : p k' = false := by simpa using hp
      simp only [List.filter_cons, hp', Bool.false_eq_true, if_false, List.lookup_cons, ih]
      by_cases hk : k = k'
      · subst hk; simp [hp']
      · have : (k == k') = false := by simpa using hk
        simp only [this]

theorem mapMessages_stripRawBytes (messages : List Record) :
    mapMessages stripRawBytes messages
      = (messages, messages.map (fun msg => withoutRawBytes msg)) := by
  unfold mapMessages stripRawBytes
  simp [List.map_map, Function.comp_def]

/-! ## Claims on the export helpers -/

/-- C19: `escapeCSV` returns the empty string for `null`/`undefined`; for any
other value with string form `s` it returns `s` unchanged when `s` contains no
comma, no newline and no double quote, and otherwise `s` between two double
quotes with every double quote of `s` doubled. -/
theorem escapeCSV_cases (v : Value) (hv : v ≠ Value.null) :
    escapeCSV Value.null = ""
    ∧ ((comma ∉ v.toStr.data ∧ newline ∉ v.toStr.data ∧ quote ∉ v.toStr.data) →
        escapeCSV v = v.toStr)
    ∧ ((comma ∈ v.toStr.data ∨ newline ∈ v.toStr.data ∨ quote ∈ v.toStr.data) →
        escapeCSV v
          = String.mk ([quote]
              ++ v.toStr.data.flatMap (fun c => if c = quote then [quote, quote] else [c])
              ++ [quote])) := by
  refine ⟨rfl, ?_, ?_⟩
  · rintro ⟨h1, h2, h3⟩
    rw [escapeCSV_of_ne_null v hv]
    simp [h1, h2, h3]
  · intro h
    rw [escapeCSV_of_ne_null v hv]
    have hc : (v.toStr.data.contains comma || v.toStr.data.contains newline
        || v.toStr.data.contains quote) = true := by
      rcases h with h | h | h <;> simp [h]
    rw [if_pos hc]
    apply String.ext
    simp only [String.data_append, replaceAllChar_data]
    rfl

/-- Instance of `escapeCSV_cases` on a text with a comma and a double quote,
with the characters spelled out. -/
theorem escapeCSV_cases_witness :
    Value.str "a,\"b\"" ≠ Value.null
    ∧ comma = ',' ∧ quote = Char.ofNat 34 ∧ newline = Char.ofNat 10
    ∧ escapeCSV (Value.str "a,\"b\"") = "\"a,\"\"b\"\"\""
    ∧ escapeCSV (Value.str "plain") = "plain"
    ∧ escapeCSV (Value.num 42) = "42"
    ∧ ((comma ∈ (Value.str "a,\"b\"").toStr.data ∨ newline ∈ (Value.str "a,\"b\"").toStr.data
          ∨ quote ∈ (Value.str "a,\"b\"").toStr.data) →
        escapeCSV (Value.str "a,\"b\"")
          = String.mk ([quote]
              ++ (Value.str "a,\"b\"").toStr.data.flatMap
                  (fun c => if c = quote then [quote, quote] else [c])
              ++ [quote])) :=
  ⟨by decide, by decide, by decide, by decide, by decide, by decide, by decide,
    (escapeCSV_cases (Value.str "a,\"b\"") (by decide)).2.2⟩

/-- C20: for a non-empty message list, `exportMessagesToJSON` with
`includeRawBytes = false` serialises a list with one record per message, in
the same order, the record of a message being the message without its
`rawMessageBytes` and `rawMessageBytesBase64` keys: it has neither key, it has
every other key with the value the message has, in the message's key order;
with `includeRawBytes = true` the message list itself is serialised; in both
cases the messages are after the call what they were before it. -/
theorem exportMessagesToJSON_data (stringify : List Record → String) (messages : List Record)
    (filename : String) (hne : messages ≠ []) :
    (∃ exportData,
      (exportMessagesToJSON stringify (some messages) filename false).1
        = Outcome.download (stringify exportData) (filename ++ ".json")
            "application/json;charset=utf-8;"
      ∧ exportData.length = messages.length
      ∧ ∀ (i : Nat) (msg : Record), messages[i]? = some msg →
          ∃ out, exportData[i]? = some out
            ∧ out.lookup "rawMessageBytes" = none
            ∧ out.lookup "rawMessageBytesBase64" = none
            ∧ (∀ k, k ≠ "rawMessageBytes" → k ≠ "rawMessageBytesBase64" →
                out.lookup k = msg.lookup k)
            ∧ (∀ kv, kv ∈ out ↔
                kv ∈ msg ∧ kv.1 ≠ "rawMessageBytes" ∧ kv.1 ≠ "rawMessageBytesBase64")
            ∧ List.Sublist out msg)
    ∧ (exportMessagesToJSON stringify (some messages) filename true).1
        = Outcome.download (stringify messages) (filename ++ ".json")
            "application/json;charset=utf-8;"
    ∧ (exportMessagesToJSON stringify (some messages) filename false).2 = some messages
    ∧ (exportMessagesToJSON stringify (some messages) filename true).2 = some messages := by
  have hl : messages.length ≠ 0 := by simpa using hne
  refine ⟨?_, ?_, ?_, ?_⟩
  · refine ⟨messages.map (fun msg => withoutRawBytes msg), ?_, by simp, ?_⟩
    · simp [exportMessagesToJSON, hl, mapMessages_stripRawBytes]
    · intro i msg hi
      refine ⟨withoutRawBytes msg, by simp [hi], ?_, ?_, ?_, ?_, ?_⟩
      · unfold withoutRawBytes
        rw [lookup_filter_key (fun k => decide (k ≠ "rawMessageBytes"
          ∧ k ≠ "rawMessageBytesBase64"))]
        simp
      · unfold withoutRawBytes
        rw [lookup_filter_key (fun k => decide (k ≠ "rawMessageBytes"
          ∧ k ≠ "rawMessageBytesBase64"))]
        simp
      · intro k h1 h2
        unfold withoutRawBytes
        rw [lookup_filter_key (fun k => decide (k ≠ "rawMessageBytes"
          ∧ k ≠ "rawMessageBytesBase64"))]
        simp [h1, h2]
      · intro kv
        simp [withoutRawBytes, List.mem_filter]
      · exact List.filter_sublist _
  · simp [exportMessagesToJSON, hl]
  · simp [exportMessagesToJSON, hl, mapMessages_stripRawBytes]
  · simp [exportMessagesToJSON, hl]

/-- Instance of `exportMessagesToJSON_data` on a message with raw bytes, the
serialiser listing the keys of each record. -/
theorem exportMessagesToJSON_data_witness :
    [[("id", Value.num 1), ("rawMessageBytesBase64", Value.str "AAEC"),
        ("text", Value.str "hi")]] ≠ ([] : List Record)
    ∧ exportMessagesToJSON
        (fun data => String.join (data.map (fun msg => String.join (msg.map Prod.fst))))
        (some [[("id", Value.num 1), ("rawMessageBytesBase64", Value.str "AAEC"),
          ("text", Value.str "hi")]]) "messages" false
      = (Outcome.download "idtext" "messages.json" "application/json;charset=utf-8;",
          some [[("id", Value.num 1), ("rawMessageBytesBase64", Value.str "AAEC"),
            ("text", Value.str "hi")]])
    ∧ (exportMessagesToJSON
        (fun data => String.join (data.map (fun msg => String.join (msg.map Prod.fst))))
        (some [[("id", Value.num 1), ("rawMessageBytesBase64", Value.str "AAEC"),
          ("text", Value.str "hi")]]) "messages" true).1
      = Outcome.download
          ((fun (data : List Record) =>
              String.join (data.map (fun msg => String.join (msg.map Prod.fst))))
            [[("id", Value.num 1), ("rawMessageBytesBase64", Value.str "AAEC"),
              ("text", Value.str "hi")]])
          ("messages" ++ ".json") "application/json;charset=utf-8;"
    ∧ (exportMessagesToJSON
        (fun data => String.join (data.map (fun msg => String.join (msg.map Prod.fst))))
        (some [[("id", Value.num 1), ("rawMessageBytesBase64", Value.str "AAEC"),
          ("text", Value.str "hi")]]) "messages" false).2
      = some [[("id", Value.num 1), ("rawMessageBytesBase64", Value.str "AAEC"),
          ("text", Value.str "hi")]] :=
  ⟨by decide, by decide,
    (exportMessagesToJSON_data
      (fun data => String.join (data.map (fun msg => String.join (msg.map Prod.fst))))
      [[("id", Value.num 1), ("rawMessageBytesBase64", Value.str "AAEC"),
        ("text", Value.str "hi")]] "messages" (by decide)).2.1,
    (exportMessagesToJSON_data
      (fun data => String.join (data.map (fun msg => String.join (msg.map Prod.fst))))
      [[("id", Value.num 1), ("rawMessageBytesBase64", Value.str "AAEC"),
        ("text", Value.str "hi")]] "messages" (by decide)).2.2.1⟩

end TableExport

namespace MessageEncodingTools

set_option maxRecDepth 200000 in
/-- C21 (the code at a 160-character text ending in `^`): counted as the
claim says the text has length 161 and takes 2 parts; `analyzeEncoding`
notes that `^` counts as 2 characters but reports the length 160 and 1 part,
because its part count is taken from `text.length`. -/
theorem analyzeEncoding_counts_extended_once :
    caretText.length = 160
    ∧ statedGsm7Length caretText = 161
    ∧ statedGsm7Parts caretText = 2
    ∧ analyzeEncoding caretText "GSM7"
      = ["Character \x27^\x27 is from GSM7 extended set and counts as 2 characters",
         "Message length: 160 characters (1 parts)"] := by
  decide

end MessageEncodingTools

namespace TableGrouping

/-- C22 (the code on a click of the expand icon): the listener reads the
identifier `tbody`, which `createParentRow` does not bind.  On a page without
a global `tbody` the click raises a `ReferenceError` whatever the group, and
nothing is toggled; on a page where a global `tbody` names another, empty,
table body the click marks the group expanded and inserts no row, although
`toggleGroup` on the body the scenario was rendered into yields the parent row
with icon `▼` followed by its two part rows. -/
theorem expandIconClick_unbound_tbody :
    (∀ (self : TableGrouping) (groupId : String) (group : Group) (columns : List String)
        (options : Options),
        expandIconClick self none groupId group columns options
          = Completion.raised "ReferenceError: tbody is not defined")
    ∧ expandIconClick (TableGrouping.mk []) (some []) "concat-group-1" scenarioGroup
          scenarioColumns noOptions
        = Completion.returned (TableGrouping.mk ["concat-group-1"], [])
    ∧ ((toggleGroup (TableGrouping.mk []) "concat-group-1"
          (renderGroupedMessages (TableGrouping.mk []) (some scenarioEntries) []
            scenarioColumns noOptions)
          scenarioGroup scenarioColumns noOptions).2.map
        (fun row => (row.icon, row.parentGroup)))
        = [(none, none), (some iconExpanded, none),
           (none, some "concat-group-1"), (none, some "concat-group-1")] := by
  refine ⟨fun _ _ _ _ _ => rfl, by decide, by decide⟩

end TableGrouping

namespace Atable

/-- C23 (the code on a table sorted by header clicks): after one click on
header 0 of a fresh table the table is sorted ascending on column 0, and
restoring its own saved state leaves it sorted descending, because the single
click of `setTableState` lands on the column `makeTableSortable` already holds
and flips the direction; after two clicks the table is sorted descending and
restoring keeps it descending. -/
theorem setTableState_flips_ascending {ρ : Type} (sortTable : Nat → Bool → List ρ → List ρ)
    (rows : List ρ) :
    (clickHeader sortTable (freshTable rows) 0).sorted = some (0, true)
    ∧ getTableState (clickHeader sortTable (freshTable rows) 0)
        = { sort := some { idx := 0, asc := true } }
    ∧ (setTableState sortTable (clickHeader sortTable (freshTable rows) 0)
          (getTableState (clickHeader sortTable (freshTable rows) 0))).sorted
        = some (0, false)
    ∧ (setTableState sortTable (clickHeader sortTable (freshTable rows) 0)
          (getTableState (clickHeader sortTable (freshTable rows) 0))).rows
        = sortTable 0 false (sortTable 0 true rows)
    ∧ (clickHeader sortTable (clickHeader sortTable (freshTable rows) 0) 0).sorted
        = some (0, false)
    ∧ (setTableState sortTable
          (clickHeader sortTable (clickHeader sortTable (freshTable rows) 0) 0)
          (getTableState
            (clickHeader sortTable (clickHeader sortTable (freshTable rows) 0) 0))).sorted
        = some (0, false) := by
  refine ⟨rfl, rfl, rfl, rfl, rfl, rfl⟩

end Atable

namespace TableExport

open TableGrouping

theorem undouble_doubled (l : List Char) :
    undouble (l.flatMap (fun d => if d = quote then [quote, quote] else [d])) = l := by
  induction l with
  | nil => rfl
  | cons c l ih =>
    rw [List.flatMap_cons]
    by_cases hc : c = quote
    · subst hc
      simp only [if_true, List.cons_append, List.nil_append]
      rw [undouble]
      simp [ih]
    · simp only [if_neg hc, List.cons_append, List.nil_append]
      generalize hX : l.flatMap (fun d => if d = quote then [quote, quote] else [d]) = X at ih
      cases X with
      | nil => subst ih; rfl
      | cons d X =>
        rw [undouble]
        simp [hc, ih]

theorem undouble_of_not_mem (l : List Char) (h : quote ∉ l) : undouble l = l := by
  induction l with
  | nil => rfl
  | cons c l ih =>
    have hc : c ≠ quote := fun e => h (by simp [e])
    have hl : quote ∉ l := fun e => h (by simp [e])
    cases l with
    | nil => rfl
    | cons d X =>
      rw [undouble]
      simp [hc, ih hl]

theorem readCSVField_escapeCSV_str (v : String) :
    readCSVField (escapeCSV (Value.str v)) = v := by
  rw [escapeCSV_of_ne_null _ (by simp)]
  simp only [Value.toStr]
  split
  · unfold readCSVField
    have hd : (String.singleton quote ++ replaceAllChar quote (String.mk [quote, quote]) v
        ++ String.singleton quote).data
        = quote :: (v.data.flatMap (fun d => if d = quote then [quote, quote] else [d])
            ++ [quote]) := by
      simp [String.data_append, replaceAllChar_data, String.singleton]
    simp only [hd]
    rw [if_pos]
    · simp [undouble_doubled]
    · refine ⟨by simp, by simp, ?_⟩
      rw [← List.cons_append]
      exact List.getLast?_concat _
  · rename_i h
    unfold readCSVField
    have hq : quote ∉ v.data := by
      intro hm
      apply h
      simp [hm]
    rw [if_neg]
    · simp [undouble_of_not_mem _ hq]
    · intro hh
      apply hq
      exact List.mem_of_mem_head? hh.2.1

/-- C26: `escapeCSV` loses no information on strings: reading the escaped form
of a string `v` back as one CSV field (enclosing double quotes removed when
present, each doubled double quote replaced by one) yields `v`, and two
strings with the same escaped form are equal. -/
theorem escapeCSV_round_trip :
    (∀ v : String, readCSVField (escapeCSV (Value.str v)) = v)
    ∧ (∀ v w : String, escapeCSV (Value.str v) = escapeCSV (Value.str w) → v = w) := by
  refine ⟨readCSVField_escapeCSV_str, fun v w h => ?_⟩
  have := congrArg readCSVField h
  rwa [readCSVField_escapeCSV_str, readCSVField_escapeCSV_str] at this

end TableExport

namespace MessagesV2

open TableGrouping

/-! ## Lemmas on sorting -/

theorem compare_key_eq (toLowerCase : String → String) (column : String) (msg : Record) :
    toLowerCase (if msg.get column = Value.null then Value.str "" else msg.get column).toStr
      = statedSortKey toLowerCase column msg := by
  unfold statedSortKey
  cases msg.get column <;> simp [Value.toStr]

theorem lex_irrefl (x : List Nat) : ¬ List.Lex (fun x y : Nat => x < y) x x :=
  irrefl_of (List.Lex (fun x y : Nat => x < y)) x

theorem lex_asymm {x y : List Nat} (h : List.Lex (fun x y : Nat => x < y) x y) :
    ¬ List.Lex (fun x y : Nat => x < y) y x :=
  asymm_of (List.Lex (fun x y : Nat => x < y)) h

theorem lex_trichotomous (x y : List Nat) :
    List.Lex (fun x y : Nat => x < y) x y ∨ x = y ∨ List.Lex (fun x y : Nat => x < y) y x :=
  trichotomous_of (List.Lex (fun x y : Nat => x < y)) x y

theorem keyLe_total (a b : String) : keyLe a b ∨ keyLe b a := by
  unfold keyLe
  rcases lex_trichotomous (utf16 a) (utf16 b) with h | h | h
  · exact Or.inl (Or.inr h)
  · exact Or.inl (Or.inl h)
  · exact Or.inr (Or.inr h)

theorem keyLe_trans {a b c : String} (h1 : keyLe a b) (h2 : keyLe b c) : keyLe a c := by
  unfold keyLe at *
  rcases h1 with h1 | h1
  · rw [h1]; exact h2
  · rcases h2 with h2 | h2
    · rw [← h2]; exact Or.inr h1
    · exact Or.inr (trans_of (List.Lex (fun x y : Nat => x < y)) h1 h2)

theorem compareMessages_asc (toLowerCase : String → String) (column : String) (a b : Record) :
    compareMessages toLowerCase "asc" column a b ≤ 0
      ↔ keyLe (statedSortKey toLowerCase column a) (statedSortKey toLowerCase column b) := by
  unfold compareMessages
  simp only [if_true, compare_key_eq, jsLt, decide_eq_true_eq]
  unfold keyLe
  by_cases h1 : List.Lex (fun x y : Nat => x < y) (utf16 (statedSortKey toLowerCase column a))
      (utf16 (statedSortKey toLowerCase column b))
  · simp [h1]
  · by_cases h2 : List.Lex (fun x y : Nat => x < y)
        (utf16 (statedSortKey toLowerCase column b)) (utf16 (statedSortKey toLowerCase column a))
    · have hne : utf16 (statedSortKey toLowerCase column a)
          ≠ utf16 (statedSortKey toLowerCase column b) := by
        intro he; rw [he] at h2; exact lex_irrefl _ h2
      simp [h1, h2, hne]
    · have he : utf16 (statedSortKey toLowerCase column a)
          = utf16 (statedSortKey toLowerCase column b) := by
        rcases lex_trichotomous (utf16 (statedSortKey toLowerCase column a))
          (utf16 (statedSortKey toLowerCase column b)) with h | h | h
        · exact absurd h h1
        · exact h
        · exact absurd h h2
      rw [if_neg h1, if_neg h2]
      exact ⟨fun _ => Or.inl he, fun _ => le_refl _⟩

theorem compareMessages_desc (toLowerCase : String → String) (direction : String)
    (hd : direction ≠ "asc") (column : String) (a b : Record) :
    compareMessages toLowerCase direction column a b ≤ 0
      ↔ keyLe (statedSortKey toLowerCase column b) (statedSortKey toLowerCase column a) := by
  unfold compareMessages
  simp only [if_neg hd, compare_key_eq, jsLt, decide_eq_true_eq]
  unfold keyLe
  by_cases h1 : List.Lex (fun x y : Nat => x < y) (utf16 (statedSortKey toLowerCase column a))
      (utf16 (statedSortKey toLowerCase column b))
  · have hne : utf16 (statedSortKey toLowerCase column b)
        ≠ utf16 (statedSortKey toLowerCase column a) := by
      intro he; rw [he] at h1; exact lex_irrefl _ h1
    simp [h1, hne, lex_asymm h1]
  · by_cases h2 : List.Lex (fun x y : Nat => x < y)
        (utf16 (statedSortKey toLowerCase column b)) (utf16 (statedSortKey toLowerCase column a))
    · simp [h1, h2]
    · have he : utf16 (statedSortKey toLowerCase column b)
          = utf16 (statedSortKey toLowerCase column a) := by
        rcases lex_trichotomous (utf16 (statedSortKey toLowerCase column a))
          (utf16 (statedSortKey toLowerCase column b)) with h | h | h
        · exact absurd h h1
        · exact h.symm
        · exact absurd h h2
      rw [if_neg h1, if_neg h2]
      exact ⟨fun _ => Or.inl he, fun _ => le_refl _⟩

theorem arraySort_perm {α : Type} (compareFn : α → α → Int) (l : List α) :
    (arraySort compareFn l).Perm l :=
  List.perm_insertionSort _ l

theorem arraySort_chain {α : Type} (compareFn : α → α → Int) (le : α → α → Prop)
    (htotal : ∀ a b, le a b ∨ le b a) (htrans : ∀ a b c, le a b → le b c → le a c)
    (h : ∀ a b, compareFn a b ≤ 0 ↔ le a b) (l : List α) :
    (arraySort compareFn l).Chain' le := by
  haveI : IsTotal α (fun a b => compareFn a b ≤ 0) :=
    ⟨fun a b => by simp only [h]; exact htotal a b⟩
  haveI : IsTrans α (fun a b => compareFn a b ≤ 0) :=
    ⟨fun a b c => by simp only [h]; exact htrans a b c⟩
  have hs : List.Sorted (fun a b => compareFn a b ≤ 0) (arraySort compareFn l) :=
    List.sorted_insertionSort _ l
  exact (List.Pairwise.imp (fun hab => (h _ _).mp hab) hs).chain'

theorem sortMessages_of_column (toLowerCase : String → String) (state : State) (column : String)
    (hcol : state.sortColumn = some column) (hset : column ≠ "") :
    sortMessages toLowerCase state
      = { state with
          filteredMessages :=
            arraySort (compareMessages toLowerCase state.sortDirection column)
              state.filteredMessages } := by
  unfold sortMessages
  rw [hcol]
  simp only [if_neg hset]

/-! ## Lemmas on paging -/

theorem slice_natCast {α : Type} (l : List α) (a b : Nat) (h : a ≤ b) :
    slice l (a : Int) (b : Int) = (l.drop a).take (b - a) := by
  unfold slice
  have ha : ¬ ((a : Int) < 0) := by omega
  have hb : ¬ ((b : Int) < 0) := by omega
  simp only [if_neg ha, if_neg hb]
  have hk : (min (a : Int) (l.length : Int)).toNat = min a l.length := by omega
  have hf : (min (b : Int) (l.length : Int) - min (a : Int) (l.length : Int)).toNat
      = min b l.length - min a l.length := by omega
  rw [hk, hf]
  by_cases hal : a ≤ l.length
  · rw [Nat.min_eq_left hal]
    by_cases hbl : b ≤ l.length
    · rw [Nat.min_eq_left hbl]
    · rw [Nat.min_eq_right (by omega)]
      rw [List.take_of_length_le (by simp), List.take_of_length_le (by simp; omega)]
  · have h1 : l.drop (min a l.length) = [] := by
      rw [Nat.min_eq_right (by omega)]; simp
    have h2 : l.drop a = [] := List.drop_eq_nil_of_le (by omega)
    rw [h1, h2]; simp

theorem pageMessages_eq (state : State) (p : Nat) (hp : 1 ≤ p) :
    pageMessages { state with currentPage := p }
      = (state.filteredMessages.drop ((p - 1) * state.pageSize)).take state.pageSize := by
  unfold pageMessages
  simp only
  have h1 : ((p : Int) - 1) * (state.pageSize : Int) = (((p - 1) * state.pageSize : Nat) : Int) := by
    rw [Nat.cast_mul, Nat.cast_sub hp]; simp
  have h2 : ((p : Int) - 1) * (state.pageSize : Int) + (state.pageSize : Int)
      = (((p - 1) * state.pageSize + state.pageSize : Nat) : Int) := by
    rw [h1]; simp
  rw [h2, h1, slice_natCast _ _ _ (by omega)]
  congr 1
  omega

theorem flatMap_pages {α : Type} (l : List α) (s k : Nat) :
    (List.range k).flatMap (fun i => (l.drop (i * s)).take s) = l.take (k * s) := by
  induction k with
  | zero => simp
  | succ k ih =>
    rw [List.range_succ, List.flatMap_append, ih]
    simp only [List.flatMap_cons, List.flatMap_nil, List.append_nil]
    rw [Nat.succ_mul, List.take_add]

theorem length_le_totalPages_mul (state : State) (hs : 1 ≤ state.pageSize) :
    state.filteredMessages.length ≤ totalPages state * state.pageSize := by
  unfold totalPages
  have h := Nat.div_add_mod (state.filteredMessages.length + state.pageSize - 1) state.pageSize
  have hm := Nat.mod_lt (state.filteredMessages.length + state.pageSize - 1)
    (show 0 < state.pageSize by omega)
  rw [Nat.mul_comm] at h
  generalize (state.filteredMessages.length + state.pageSize - 1) / state.pageSize * state.pageSize
    = q at h ⊢
  omega

theorem page_start_lt_length (state : State) (hs : 1 ≤ state.pageSize) (p : Nat) (hp : 1 ≤ p)
    (hpt : p ≤ totalPages state) :
    (p - 1) * state.pageSize < state.filteredMessages.length := by
  have h1 : (p - 1) * state.pageSize ≤ (totalPages state - 1) * state.pageSize :=
    Nat.mul_le_mul_right _ (by omega)
  have h2 : totalPages state * state.pageSize
      ≤ state.filteredMessages.length + state.pageSize - 1 := by
    unfold totalPages
    exact Nat.div_mul_le_self _ _
  have h3 : (totalPages state - 1) * state.pageSize
      = totalPages state * state.pageSize - state.pageSize := by
    rw [Nat.sub_mul, Nat.one_mul]
  have h4 : state.pageSize ≤ totalPages state * state.pageSize :=
    Nat.le_mul_of_pos_left _ (by omega)
  omega

/-! ## Lemmas on filtering -/

theorem fieldMatches_of_searchable (toLowerCase : String → String) (term field : String)
    (v : Value) (hv : searchable v = true) :
    ∃ b, fieldMatches toLowerCase term field v = Completion.returned b := by
  cases v with
  | null => exact ⟨false, rfl⟩
  | str s =>
    unfold fieldMatches
    by_cases hs : s = ""
    · exact ⟨false, by simp [hs]⟩
    · exact ⟨includes (toLowerCase s) term, by simp only [if_neg hs]⟩
  | num n =>
    have hn : (Value.num n).truthy = false := by simpa [searchable] using hv
    exact ⟨false, by simp [fieldMatches, hn]⟩
  | bool b =>
    have hn : (Value.bool b).truthy = false := by simpa [searchable] using hv
    exact ⟨false, by simp [fieldMatches, hn]⟩

theorem anyFieldMatches_of_searchable (toLowerCase : String → String) (term : String)
    (msg : Record) (fields : List String)
    (h : ∀ field ∈ fields, searchable (msg.get field) = true) :
    ∃ b, anyFieldMatches toLowerCase term msg fields = Completion.returned b := by
  induction fields with
  | nil => exact ⟨false, rfl⟩
  | cons field fields ih =>
    obtain ⟨b, hb⟩ := fieldMatches_of_searchable toLowerCase term field (msg.get field)
      (h field (by simp))
    unfold anyFieldMatches
    rw [hb]
    cases b with
    | true => exact ⟨true, rfl⟩
    | false => exact ih (fun f hf => h f (by simp [hf]))

theorem filterLoop_of_returns (callback : Record → Completion Bool) (messages : List Record)
    (h : ∀ msg ∈ messages, ∃ b, callback msg = Completion.returned b) :
    ∃ kept, filterLoop callback messages = Completion.returned kept
      ∧ kept.Sublist messages := by
  induction messages with
  | nil => exact ⟨[], rfl, List.Sublist.refl _⟩
  | cons msg rest ih =>
    obtain ⟨b, hb⟩ := h msg (by simp)
    obtain ⟨kept, hk, hsub⟩ := ih (fun m hm => h m (by simp [hm]))
    unfold filterLoop
    rw [hb]
    simp only [hk]
    cases b with
    | true => exact ⟨msg :: kept, rfl, hsub.cons₂ _⟩
    | false => exact ⟨kept, rfl, hsub.cons _⟩

/-! ## Claims on the messages page -/

/-- C24: when `sortColumn` is set (a non-empty column name), `sortMessages`
leaves `filteredMessages` a permutation of its previous contents in which
every two adjacent messages are in order by the lower-cased string form of
their value in that column (`null` or `undefined` as the empty string), the
keys being compared as JavaScript compares strings: non-decreasing for `asc`
and non-increasing for `desc`; nothing else of the state changes; when
`sortColumn` is `null` the state is left unchanged. -/
theorem sortMessages_sorts (toLowerCase : String → String) (state : State) :
    (∀ column : String, state.sortColumn = some column → column ≠ "" →
        (sortMessages toLowerCase state).filteredMessages.Perm state.filteredMessages
        ∧ (state.sortDirection = "asc" →
            (sortMessages toLowerCase state).filteredMessages.Chain'
              (fun a b => keyLe (statedSortKey toLowerCase column a)
                (statedSortKey toLowerCase column b)))
        ∧ (state.sortDirection = "desc" →
            (sortMessages toLowerCase state).filteredMessages.Chain'
              (fun a b => keyLe (statedSortKey toLowerCase column b)
                (statedSortKey toLowerCase column a)))
        ∧ sortMessages toLowerCase state
            = { state with
                filteredMessages := (sortMessages toLowerCase state).filteredMessages })
    ∧ (state.sortColumn = none → sortMessages toLowerCase state = state) := by
  refine ⟨fun column hcol hset => ?_, fun hnone => ?_⟩
  · rw [sortMessages_of_column toLowerCase state column hcol hset]
    refine ⟨arraySort_perm _ _, fun hasc => ?_, fun hdesc => ?_, rfl⟩
    · rw [hasc]
      exact arraySort_chain (compareMessages toLowerCase "asc" column)
        (fun a b => keyLe (statedSortKey toLowerCase column a)
          (statedSortKey toLowerCase column b))
        (fun a b => keyLe_total _ _) (fun a b c => keyLe_trans)
        (compareMessages_asc toLowerCase column) _
    · rw [hdesc]
      exact arraySort_chain (compareMessages toLowerCase "desc" column)
        (fun a b => keyLe (statedSortKey toLowerCase column b)
          (statedSortKey toLowerCase column a))
        (fun a b => keyLe_total _ _) (fun a b c h1 h2 => keyLe_trans h2 h1)
        (compareMessages_desc toLowerCase "desc" (by decide) column) _
  · unfold sortMessages
    rw [hnone]

/-- Witness for C24: three messages with the texts `b`, `A`, `c` sorted
ascending on `text` under a lower-casing that leaves them as they are: the
result has the texts `A`, `b`, `c`. -/
theorem sortMessages_sorts_witness :
    unsortedState.sortColumn = some "text" ∧ "text" ≠ ""
    ∧ unsortedState.sortDirection = "asc"
    ∧ (sortMessages id unsortedState).filteredMessages
        = [[("text", Value.str "A")], [("text", Value.str "b")], [("text", Value.str "c")]]
    ∧ (sortMessages id unsortedState).filteredMessages.Perm unsortedState.filteredMessages
    ∧ (sortMessages id unsortedState).filteredMessages.Chain'
        (fun a b => keyLe (statedSortKey id "text" a) (statedSortKey id "text" b)) :=
  ⟨rfl, by decide, rfl, by decide,
    ((sortMessages_sorts id unsortedState).1 "text" rfl (by decide)).1,
    ((sortMessages_sorts id unsortedState).1 "text" rfl (by decide)).2.1 rfl⟩

/-- C25: for a page size of at least 1, the slices that `renderTable` displays
for the pages 1, 2, ..., `ceil(n / s)` each hold between 1 and `s` messages,
and concatenated in page order they are the filtered list, as are the rows
built from them. -/
theorem pageMessages_partition (state : State) (hs : 1 ≤ state.pageSize) :
    (∀ p : Nat, 1 ≤ p → p ≤ totalPages state →
        1 ≤ (pageMessages { state with currentPage := p }).length
        ∧ (pageMessages { state with currentPage := p }).length ≤ state.pageSize)
    ∧ (List.range (totalPages state)).flatMap
          (fun i => pageMessages { state with currentPage := i + 1 })
        = state.filteredMessages
    ∧ (∀ (ρ : Type) (createMessageRow : Record → ρ),
        (List.range (totalPages state)).flatMap
            (fun i => renderTable createMessageRow { state with currentPage := i + 1 })
          = state.filteredMessages.map createMessageRow) := by
  have hcat : (List.range (totalPages state)).flatMap
        (fun i => pageMessages { state with currentPage := i + 1 })
      = state.filteredMessages := by
    have hfun : (fun i => pageMessages { state with currentPage := i + 1 })
        = (fun i => (state.filteredMessages.drop (i * state.pageSize)).take state.pageSize) := by
      funext i
      rw [pageMessages_eq state (i + 1) (by omega)]
      simp
    rw [hfun, flatMap_pages]
    exact List.take_of_length_le (length_le_totalPages_mul state hs)
  refine ⟨fun p hp hpt => ?_, hcat, fun ρ createMessageRow => ?_⟩
  · rw [pageMessages_eq state p hp]
    have hlt := page_start_lt_length state hs p hp hpt
    simp only [List.length_take, List.length_drop]
    omega
  · conv_rhs => rw [← hcat]
    unfold renderTable
    rw [List.map_flatMap]

/-- Witness for C25: three messages at page size 2 make two pages. -/
theorem pageMessages_partition_witness :
    1 ≤ unsortedState.pageSize
    ∧ totalPages unsortedState = 2
    ∧ (List.range (totalPages unsortedState)).flatMap
          (fun i => pageMessages { unsortedState with currentPage := i + 1 })
        = unsortedState.filteredMessages :=
  ⟨by decide, by decide, (pageMessages_partition unsortedState (by decide)).2.1⟩

/-- C27 (the code on a numeric field): with a search term typed, a message
whose `id` is the number 7 makes `filterMessages` raise a `TypeError`, whatever
the lower-casing, and `filteredMessages` is not assigned; on messages whose
five fields are each a string or a falsy value it returns, with
`filteredMessages` a sub-sequence of `messages` and the rest of the state as
it was. -/
theorem filterMessages_raises_on_numeric_id :
    (∀ toLowerCase : String → String,
        filterMessages toLowerCase numericIdState
          = Completion.raised "TypeError: msg.id.toLowerCase is not a function")
    ∧ (∀ (toLowerCase : String → String) (state : State),
        (∀ msg ∈ state.messages, ∀ field ∈ searchFields, searchable (msg.get field) = true) →
        ∃ kept, filterMessages toLowerCase state
            = Completion.returned { state with filteredMessages := kept }
          ∧ kept.Sublist state.messages) := by
  refine ⟨fun toLowerCase => rfl, fun toLowerCase state h => ?_⟩
  unfold filterMessages
  by_cases hterm : state.searchTerm = ""
  · exact ⟨state.messages, by simp [hterm], List.Sublist.refl _⟩
  · obtain ⟨kept, hk, hsub⟩ := filterLoop_of_returns
      (fun msg => anyFieldMatches toLowerCase state.searchTerm msg searchFields) state.messages
      (fun msg hm => anyFieldMatches_of_searchable toLowerCase state.searchTerm msg searchFields
        (h msg hm))
    refine ⟨kept, ?_, hsub⟩
    simp only [if_neg hterm, hk]

end MessagesV2
